import Mathlib

/-!
Verification development for `adifpush_enhanced.py`, an ADIF QSO
uploader with duplicate detection.  The Python source is shallowly
embedded: pure helpers become Lean functions on `String` / `List Char`,
file and network effects become explicit state passing with oracles for
the outside world, and `hashlib.sha256` is implemented in full over
`Nat` arithmetic (`% 2^32` where the reference semantics wraps).
-/

namespace PyStr

/-- Characters removed by Python `str.strip()` (ASCII whitespace). -/
def isPyWS (c : Char) : Bool :=
  c = ' ' ∨ c = '\t' ∨ c = '\n' ∨ c = '\r' ∨ c = '\x0b' ∨ c = '\x0c'

/-- `str.strip()` on a character list: drop ASCII whitespace at both ends. -/
def stripChars (l : List Char) : List Char :=
  ((l.dropWhile isPyWS).reverse.dropWhile isPyWS).reverse

/-- Python `str.strip()`. -/
def pyStrip (s : String) : String := ⟨stripChars s.data⟩

/-- `str.split('\n')` on a character list: `"".split('\n') == ['']`,
separators are consumed, empty pieces are kept. -/
def splitNL : List Char → List (List Char)
  | [] => [[]]
  | c :: cs =>
    if c = '\n' then [] :: splitNL cs
    else
      match splitNL cs with
      | r :: rs => (c :: r) :: rs
      | [] => [[c]]

/-- Python `s.split('\n')` as a list of strings. -/
def pySplitNL (s : String) : List String := (splitNL s.data).map fun l => ⟨l⟩

/-- `'\n'.join(...)` on character lists. -/
def joinNL : List (List Char) → List Char
  | [] => []
  | [x] => x
  | x :: xs => x ++ '\n' :: joinNL xs

/-- Python `'\n'.join(...)` over strings. -/
def pyJoinNL (l : List String) : String := ⟨joinNL (l.map String.data)⟩

/-- Python `str.startswith(...)` (via the underlying character lists). -/
def pyStartsWith (s pre : String) : Bool := pre.data.isPrefixOf s.data

/-- Python string comparison: lexicographic on code points, `≤`. -/
def lexLe : List Char → List Char → Bool
  | [], _ => true
  | _ :: _, [] => false
  | a :: as, b :: bs =>
    if a.toNat < b.toNat then true
    else if b.toNat < a.toNat then false
    else lexLe as bs

/-- Python `s1 <= s2` on strings. -/
def pyLe (a b : String) : Bool := lexLe a.data b.data

/-- Insert into a sorted list (ascending under `pyLe`). -/
def insSorted (x : String) : List String → List String
  | [] => [x]
  | y :: ys => if pyLe x y then x :: y :: ys else y :: insSorted x ys

/-- Python `sorted(...)` on a collection of strings (insertion sort; on
the duplicate-free lists produced by `set(...)` any comparison sort
returns the same, unique, ascending enumeration). -/
def pySorted : List String → List String
  | [] => []
  | x :: xs => insSorted x (pySorted xs)

/-- Python `str.replace(pat, repl)` for a single-character pattern with
empty replacement, i.e. delete every occurrence of `pat`. -/
def delChar (pat : Char) (l : List Char) : List Char :=
  l.filter fun c => c ≠ pat

/-- `value.replace('W', '')` over strings. -/
def pyDelChar (pat : Char) (s : String) : String := ⟨delChar pat s.data⟩

/-- Python `needle in haystack` substring test. -/
def containsSub : List Char → List Char → Bool
  | needle, [] => needle.isPrefixOf []
  | needle, l@(_ :: cs) => needle.isPrefixOf l || containsSub needle cs

/-- Python `sub in s` on strings. -/
def pyContains (s sub : String) : Bool := containsSub sub.data s.data

end PyStr

namespace Sha256

/-- Truncation to a 32-bit word. -/
def w32 (n : Nat) : Nat := n % 4294967296

/-- Rotate a 32-bit word right by `k`. -/
def rotr (k x : Nat) : Nat := w32 ((x >>> k) ||| (x <<< (32 - k)))

/-- 32-bit bitwise complement. -/
def compl32 (x : Nat) : Nat := 4294967295 ^^^ x

def ch (x y z : Nat) : Nat := (x &&& y) ^^^ (compl32 x &&& z)

def maj (x y z : Nat) : Nat := (x &&& y) ^^^ (x &&& z) ^^^ (y &&& z)

def bsig0 (x : Nat) : Nat := rotr 2 x ^^^ rotr 13 x ^^^ rotr 22 x

def bsig1 (x : Nat) : Nat := rotr 6 x ^^^ rotr 11 x ^^^ rotr 25 x

def ssig0 (x : Nat) : Nat := rotr 7 x ^^^ rotr 18 x ^^^ (x >>> 3)

def ssig1 (x : Nat) : Nat := rotr 17 x ^^^ rotr 19 x ^^^ (x >>> 10)

/-- The 64 SHA-256 round constants, written in decimal. -/
def K : List Nat :=
  [1116352408, 1899447441, 3049323471, 3921009573, 961987163, 1508970993,
   2453635748, 2870763221, 3624381080, 310598401, 607225278, 1426881987,
   1925078388, 2162078206, 2614888103, 3248222580, 3835390401, 4022224774,
   264347078, 604807628, 770255983, 1249150122, 1555081692, 1996064986,
   2554220882, 2821834349, 2952996808, 3210313671, 3336571891, 3584528711,
   113926993, 338241895, 666307205, 773529912, 1294757372, 1396182291,
   1695183700, 1986661051, 2177026350, 2456956037, 2730485921, 2820302411,
   3259730800, 3345764771, 3516065817, 3600352804, 4094571909, 275423344,
   430227734, 506948616, 659060556, 883997877, 958139571, 1322822218,
   1537002063, 1747873779, 1955562222, 2024104815, 2227730452, 2361852424,
   2428436474, 2756734187, 3204031479, 3329325298]

/-- The eight-word SHA-256 hash state. -/
structure HState where
  h0 : Nat
  h1 : Nat
  h2 : Nat
  h3 : Nat
  h4 : Nat
  h5 : Nat
  h6 : Nat
  h7 : Nat

/-- The initial hash value, in decimal. -/
def init : HState :=
  ⟨1779033703, 3144134277, 1013904242, 2773480762,
   1359893119, 2600822924, 528734635, 1541459225⟩

/-- Big-endian 32-bit words from a byte list (16 words per block). -/
def toWords : List Nat → List Nat
  | b0 :: b1 :: b2 :: b3 :: rest => (((b0 * 256 + b1) * 256 + b2) * 256 + b3) :: toWords rest
  | _ => []

/-- Extend the message schedule; `rws` holds the words produced so far,
most recent first.  Performs `k` extension steps. -/
def extendSchedule : Nat → List Nat → List Nat
  | 0, rws => rws
  | k + 1, rws =>
    let next := w32 (ssig1 (rws.getD 1 0) + rws.getD 6 0 + ssig0 (rws.getD 14 0) + rws.getD 15 0)
    extendSchedule k (next :: rws)

/-- The 64-word message schedule of one 64-byte block. -/
def schedule (block : List Nat) : List Nat :=
  (extendSchedule 48 (toWords block).reverse).reverse

/-- One round of the compression function; the state is `(a,b,...,h)`. -/
def round (st : HState) (kw : Nat × Nat) : HState :=
  let t1 := w32 (st.h7 + bsig1 st.h4 + ch st.h4 st.h5 st.h6 + kw.1 + kw.2)
  let t2 := w32 (bsig0 st.h0 + maj st.h0 st.h1 st.h2)
  ⟨w32 (t1 + t2), st.h0, st.h1, st.h2, w32 (st.h3 + t1), st.h4, st.h5, st.h6⟩

/-- Compress one 64-byte block into the running hash state. -/
def compress (h : HState) (block : List Nat) : HState :=
  let f := (List.zip K (schedule block)).foldl round h
  ⟨w32 (h.h0 + f.h0), w32 (h.h1 + f.h1), w32 (h.h2 + f.h2), w32 (h.h3 + f.h3),
   w32 (h.h4 + f.h4), w32 (h.h5 + f.h5), w32 (h.h6 + f.h6), w32 (h.h7 + f.h7)⟩

/-- A number as `len` big-endian bytes. -/
def toBytesFixed : Nat → Nat → List Nat
  | 0, _ => []
  | len + 1, n => toBytesFixed len (n / 256) ++ [n % 256]

/-- SHA-256 padding: `0x80`, zeros to 56 mod 64, 8-byte bit length. -/
def pad (msg : List Nat) : List Nat :=
  let len := msg.length
  let zeros := (119 - len % 64) % 64
  msg ++ 0x80 :: List.replicate zeros 0 ++ toBytesFixed 8 ((8 * len) % 18446744073709551616)

/-- Split into 64-byte blocks (`fuel` bounds the recursion). -/
def chunks64 : Nat → List Nat → List (List Nat)
  | 0, _ => []
  | _, [] => []
  | fuel + 1, l => l.take 64 :: chunks64 fuel (l.drop 64)

/-- The SHA-256 state after absorbing a byte message. -/
def sha256 (msg : List Nat) : HState :=
  let p := pad msg
  (chunks64 p.length p).foldl compress init

/-- A lowercase hexadecimal digit. -/
def hexChar (n : Nat) : Char :=
  if n < 10 then Char.ofNat (48 + n) else Char.ofNat (87 + n)

/-- A number as exactly `len` lowercase hex digits (big-endian). -/
def toHexFixed : Nat → Nat → List Char
  | 0, _ => []
  | len + 1, n => toHexFixed len (n / 16) ++ [hexChar (n % 16)]

/-- `hexdigest()`: 64 lowercase hex characters of the final state. -/
def digestChars (h : HState) : List Char :=
  toHexFixed 8 h.h0 ++ toHexFixed 8 h.h1 ++ toHexFixed 8 h.h2 ++ toHexFixed 8 h.h3 ++
  toHexFixed 8 h.h4 ++ toHexFixed 8 h.h5 ++ toHexFixed 8 h.h6 ++ toHexFixed 8 h.h7

/-- UTF-8 bytes of one character (`str.encode()`). -/
def utf8Bytes (c : Char) : List Nat :=
  let n := c.toNat
  if n < 128 then [n]
  else if n < 2048 then [192 ||| (n >>> 6), 128 ||| (n &&& 63)]
  else if n < 65536 then
    [224 ||| (n >>> 12), 128 ||| ((n >>> 6) &&& 63), 128 ||| (n &&& 63)]
  else
    [240 ||| (n >>> 18), 128 ||| ((n >>> 12) &&& 63), 128 ||| ((n >>> 6) &&& 63), 128 ||| (n &&& 63)]

/-- `str.encode()`: UTF-8 bytes of a string. -/
def strBytes (s : String) : List Nat := (s.data.map utf8Bytes).flatten

/-- `hashlib.sha256(s.encode()).hexdigest()`. -/
def sha256hex (s : String) : String := ⟨digestChars (sha256 (strBytes s))⟩

end Sha256

set_option maxRecDepth 100000
set_option maxHeartbeats 2000000

-- Sanity check against a published SHA-256 test vector: sha256("abc").
example :
    Sha256.sha256hex "abc" =
      "ba7816bf8f01cfea414140de5dae2223b00361a396177a9cb410ff61f20015ad" := by
  decide

/-- A parsed ADIF record: the Python `dict` built by `parse_line`,
modelled as an association list with unique keys (assignment replaces
the value at an existing key, otherwise appends). -/
abbrev Record := List (String × String)

namespace Record

/-- Python `record[k] = v` (dict assignment). -/
def set (r : Record) (k v : String) : Record :=
  if (r.map Prod.fst).contains k then
    r.map fun p => if p.1 = k then (k, v) else p
  else r ++ [(k, v)]

/-- Python `k in record`. -/
def hasKey (r : Record) (k : String) : Bool := (r.map Prod.fst).contains k

/-- Python `record.get(k, d)`. -/
def getD (r : Record) (k d : String) : String :=
  match r.find? fun p => p.1 = k with
  | some p => p.2
  | none => d

end Record

namespace AdifParser

/-- A character matched by the regex class `\w` (ASCII range). -/
def isWordChar (c : Char) : Bool := c.isAlphanum || c = '_'

/-- Try to match the regex `<(\w+):(\d+)>([^<]*)` at the head of the
input; on success return the three capture groups and the rest of the
input (scanning resumes right after the match, as `re.findall` does). -/
def matchTagAt : List Char → Option ((List Char × List Char × List Char) × List Char)
  | '<' :: rest =>
    let name := rest.takeWhile isWordChar
    let r1 := rest.dropWhile isWordChar
    if name = [] then none
    else
      match r1 with
      | ':' :: r2 =>
        let digits := r2.takeWhile Char.isDigit
        let r3 := r2.dropWhile Char.isDigit
        if digits = [] then none
        else
          match r3 with
          | '>' :: r4 =>
            let value := r4.takeWhile fun c => c ≠ '<'
            let r5 := r4.dropWhile fun c => c ≠ '<'
            some ((name, digits, value), r5)
          | _ => none
      | _ => none
  | _ => none

/-- `re.findall(r'<(\w+):(\d+)>([^<]*)', line, re.IGNORECASE)`: scan
left to right for non-overlapping matches (the character classes and
literals of this pattern are case-insensitive-invariant, so the flag is
inert).  `fuel` bounds the scan; every step consumes at least one
character, so `line.length` suffices. -/
def findTags : Nat → List Char → List (List Char × List Char × List Char)
  | 0, _ => []
  | _, [] => []
  | fuel + 1, l =>
    match matchTagAt l with
    | some (m, rest) => m :: findTags fuel rest
    | none => findTags fuel l.tail

/-- `AdifParser.parse_line`: parse a single ADIF line into a record; the
key of each matched tag is lowercased; the record is rejected when no
tags match or one of `call`, `qso_date`, `time_on` is missing. -/
def parse_line (line : String) : Option Record :=
  let tagMatches := findTags line.data.length line.data
  if tagMatches = [] then none
  else
    let record : Record :=
      tagMatches.foldl (fun r m => r.set ⟨m.1.map Char.toLower⟩ ⟨m.2.2⟩) []
    if record.hasKey "call" && record.hasKey "qso_date" && record.hasKey "time_on" then
      some record
    else none

/-- The normalized string hashed by `calculate_hash`:
`f"{qso_date}_{time_on}_{call}_{freq}_{mode}"` with missing fields
rendered as the empty string. -/
def normalizedString (record : Record) : String :=
  record.getD "qso_date" "" ++ "_" ++ record.getD "time_on" "" ++ "_" ++
  record.getD "call" "" ++ "_" ++ record.getD "freq" "" ++ "_" ++ record.getD "mode" ""

/-- `AdifParser.calculate_hash`: SHA-256 of the normalized identifying
fields, or `""` when the line does not parse. -/
def calculate_hash (adif_line : String) : String :=
  match parse_line adif_line with
  | none => ""
  | some record => Sha256.sha256hex (normalizedString record)

/-- `AdifParser.read_file`, instrumented.  The filesystem is an oracle
`openR` giving the outcome of the `i`-th `open`+`readlines` attempt
(`IOError` text or the file's lines).  Returns the number of attempts
made, the log of `time.sleep` calls (durations in milliseconds — the
source sleeps a literal `0.5` seconds), and the overall outcome, where
`Except.error` models the exception re-raised after the retry budget is
exhausted. -/
def max_retries : Nat := 5

/-- One `time.sleep(0.5)` call, in milliseconds. -/
def retry_sleep_ms : Nat := 500

/-- The retry loop of `read_file`, from attempt index `attempt`;
`fuel` counts the loop iterations still available. -/
def read_file_go (openR : Nat → Except String (List String)) :
    Nat → Nat → Nat × List Nat × Except String (List String)
  | 0, _ => (0, [], Except.error "")
  | fuel + 1, attempt =>
    match openR attempt with
    | Except.ok lines => (1, [], Except.ok lines)
    | Except.error e =>
      if attempt < max_retries - 1 then
        let r := read_file_go openR fuel (attempt + 1)
        (r.1 + 1, retry_sleep_ms :: r.2.1, r.2.2)
      else (1, [], Except.error e)

def read_file (openR : Nat → Except String (List String)) :
    Nat × List Nat × Except String (List String) :=
  read_file_go openR max_retries 0

end AdifParser

namespace Config

/-- The duplicate-cache file under `~/.adifpush/uploaded_qsos`, as
`none` (absent) or `some content`. -/
def CacheFile := Option String

/-- `Config.load_uploaded_qsos`: the set of already-uploaded QSO hashes,
`set(content.strip().split('\n'))` when the file exists, else the empty
set.  Python sets are modelled as duplicate-free lists; `List.dedup`
keeps first occurrences. -/
def load_uploaded_qsos (file : CacheFile) : List String :=
  match file with
  | none => []
  | some content => (PyStr.pySplitNL (PyStr.pyStrip content)).dedup

/-- `Config.save_uploaded_qso`: re-read the set, add one hash, and
rewrite the file as `'\n'.join(sorted(uploaded))`; returns the new file
content. -/
def save_uploaded_qso (file : CacheFile) (qso_hash : String) : String :=
  PyStr.pyJoinNL (PyStr.pySorted ((load_uploaded_qsos file).insert qso_hash))

/-- The menu's clear-cache branch: `Config.CACHE_FILE.unlink(missing_ok=True)`. -/
def clear_cache (_file : CacheFile) : CacheFile := none

end Config

-- Concrete sanity checks of the parser against the spec's end-to-end example.
example :
    (AdifParser.parse_line
      "<QSO_DATE:8>20240115<TIME_ON:6>143000<CALL:5>W1ABC<FREQ:8>14.07400<MODE:3>FT8<EOR>").isSome = true := by
  decide

example : AdifParser.parse_line "<QSO_DATE:8>20240115<TIME_ON:6>143000" = none := by
  decide

example :
    (AdifParser.parse_line "<call:5>W1ABC<qso_date:8>20240115<time_on:6>143000").map
      (fun r => r.getD "call" "") = some "W1ABC" := by
  decide

example : Config.save_uploaded_qso none "b" = "b" := by decide

example : Config.save_uploaded_qso (some "c\na") "b" = "a\nb\nc" := by decide

example : Config.load_uploaded_qsos (some "a\nb") = ["a", "b"] := by decide

/-- The configured connection triple (`url`, `apikey`, `stationid`). -/
structure PushConfig where
  url : String
  apikey : String
  stationid : String

/-- The JSON envelope POSTed by `push_record`:
`{"key": .., "station_profile_id": .., "type": "adif", "string": ..}`. -/
structure Payload where
  key : String
  station_profile_id : String
  type : String
  string : String
deriving DecidableEq

/-- The outside world of one HTTP POST: either a transport-level
failure description (`RequestException`) or `(status_code, text)`. -/
abbrev Network := Payload → Except String (Nat × String)

namespace CloudlogPusher

/-- `CloudlogPusher.push_record`, instrumented.  Returns the
`(ok, error_reason)` pair of the source together with the payload
actually POSTed (`none` when no network call was made).  The TX power
cleanup mutates only the parsed record, which the source then discards;
it is kept here verbatim for fidelity. -/
def push_record (cfg : PushConfig) (net : Network) (adif_line : String) :
    (Bool × Option String) × Option Payload :=
  match AdifParser.parse_line adif_line with
  | none => ((false, some "Invalid ADIF format"), none)
  | some record =>
    -- record['tx_pwr'] = record['tx_pwr'].replace('W', '').strip()
    let _record :=
      if record.hasKey "tx_pwr" then
        record.set "tx_pwr" (PyStr.pyStrip (PyStr.pyDelChar 'W' (record.getD "tx_pwr" "")))
      else record
    let payload : Payload :=
      { key := cfg.apikey, station_profile_id := cfg.stationid
        type := "adif", string := adif_line }
    match net payload with
    | Except.ok (status, text) =>
      if status = 200 ∨ status = 201 then ((true, none), some payload)
      else ((false, some (toString status ++ ": " ++ ⟨text.data.take 100⟩)), some payload)
    | Except.error e => ((false, some e), some payload)

/-- The evolving state of one `push_file` run: the three counters of the
returned dictionary, the duplicate-cache file on disk, and the log of
payloads forwarded to the network. -/
structure FileRun where
  success : Nat
  failed : Nat
  skipped : Nat
  disk : Config.CacheFile
  calls : List Payload

/-- The body of `push_file`'s per-line loop.  `uploaded_hashes` is the
snapshot loaded once before the loop; the source never updates it
in-memory (successful sends only rewrite the file). -/
def push_file_step (cfg : PushConfig) (net : Network) (uploaded_hashes : List String)
    (st : FileRun) (line : String) : FileRun :=
  let trimmed := PyStr.pyStrip line
  if trimmed = "" ∨ PyStr.pyStartsWith trimmed "#" then st
  else
    let qso_hash := AdifParser.calculate_hash trimmed
    if qso_hash ≠ "" ∧ qso_hash ∈ uploaded_hashes then
      { st with skipped := st.skipped + 1 }
    else
      let result := push_record cfg net trimmed
      if result.1.1 then
        { st with
          success := st.success + 1
          disk := if qso_hash ≠ "" then some (Config.save_uploaded_qso st.disk qso_hash)
                  else st.disk
          calls := st.calls ++ result.2.toList }
      else
        { st with failed := st.failed + 1, calls := st.calls ++ result.2.toList }

/-- `CloudlogPusher.push_file`, instrumented with the duplicate-cache
file state and the network-call log.  A read failure (after the retry
budget of `read_file`) is caught and reported as zero counts. -/
def push_file (cfg : PushConfig) (net : Network)
    (openR : Nat → Except String (List String)) (skip_duplicates : Bool)
    (disk : Config.CacheFile) : FileRun :=
  match (AdifParser.read_file openR).2.2 with
  | Except.error _ => ⟨0, 0, 0, disk, []⟩
  | Except.ok lines =>
    let uploaded_hashes := if skip_duplicates then Config.load_uploaded_qsos disk else []
    lines.foldl (push_file_step cfg net uploaded_hashes) ⟨0, 0, 0, disk, []⟩

end CloudlogPusher

namespace WsjtxListener

/-- The lazy tail `.*?<EOR>` of the extraction regex: the shortest
non-newline-crossing stretch ending in the literal `<EOR>` (`.` does
not match `'\n'` without `re.DOTALL`). -/
def findEORLazy : List Char → Option (List Char)
  | [] => none
  | c :: cs =>
    if ("<EOR>".data).isPrefixOf (c :: cs) then some "<EOR>".data
    else if c = '\n' then none
    else (findEORLazy cs).map fun t => c :: t

/-- Try to match `<QSO_DATE:\d+>\d+.*?<EOR>` at the head of the input,
returning the matched text. -/
def matchAdifAt (l : List Char) : Option (List Char) :=
  if ("<QSO_DATE:".data).isPrefixOf l then
    let rest := l.drop 10
    let d1 := rest.takeWhile Char.isDigit
    let r1 := rest.dropWhile Char.isDigit
    if d1 = [] then none
    else
      match r1 with
      | '>' :: r2 =>
        let d2 := r2.takeWhile Char.isDigit
        let r3 := r2.dropWhile Char.isDigit
        if d2 = [] then none
        else (findEORLazy r3).map fun t => "<QSO_DATE:".data ++ d1 ++ '>' :: d2 ++ t
      | _ => none
  else none

/-- `re.search(r'<QSO_DATE:\d+>\d+.*?<EOR>', text)`: the leftmost
match.  `fuel` bounds the position scan. -/
def searchAdifAux : Nat → List Char → Option (List Char)
  | 0, _ => none
  | _, [] => none
  | fuel + 1, l =>
    match matchAdifAt l with
    | some m => some m
    | none => searchAdifAux fuel l.tail

def searchAdif (s : String) : Option String :=
  (searchAdifAux s.data.length s.data).map fun l => ⟨l⟩

/-- The result of handling one datagram: the duplicate-cache file, the
listener's in-memory `last_uploaded_qsos` working set, and the log of
payloads forwarded to the network. -/
structure Handled where
  disk : Config.CacheFile
  mem : List String
  calls : List Payload

/-- `WsjtxListener._parse_message` on the decoded datagram text
(`data.decode('utf-8', errors='ignore')` precedes this in the source;
the model takes the decoded text).  Every early `return` of the source
leaves both the cache file and the working set untouched and makes no
network call; the trailing `except Exception: pass` swallows any error,
which the total model renders by always returning a state. -/
def parse_message (cfg : PushConfig) (net : Network)
    (disk : Config.CacheFile) (mem : List String) (text_data : String) : Handled :=
  if ¬ PyStr.pyContains text_data "<QSO_DATE:" ∨ ¬ PyStr.pyContains text_data "<CALL:" then
    ⟨disk, mem, []⟩
  else
    match searchAdif text_data with
    | none => ⟨disk, mem, []⟩
    | some adif_line =>
      let qso_hash := AdifParser.calculate_hash adif_line
      if qso_hash ∈ mem then ⟨disk, mem, []⟩
      else
        match AdifParser.parse_line adif_line with
        | none => ⟨disk, mem, []⟩
        | some _record =>
          let result := CloudlogPusher.push_record cfg net adif_line
          if result.1.1 then
            if qso_hash ≠ "" then
              ⟨some (Config.save_uploaded_qso disk qso_hash), mem.insert qso_hash,
               result.2.toList⟩
            else ⟨disk, mem, result.2.toList⟩
          else ⟨disk, mem, result.2.toList⟩

end WsjtxListener

/-- Modelled from the spec: the one normalization §4.3 describes for the
`TX_PWR` value, "strip a trailing unit letter and surrounding
whitespace".  Used only to state what the spec claims about the
transmitted text; the source's payload is compared against it. -/
def spec_strip_power_unit (v : String) : String :=
  let t := PyStr.pyStrip v
  match t.data.reverse with
  | c :: rest => if c.isAlpha then PyStr.pyStrip ⟨rest.reverse⟩ else t
  | [] => t

example : spec_strip_power_unit " 100W " = "100" := by decide

example :
    WsjtxListener.searchAdif "junk<QSO_DATE:8>20240115<TIME_ON:6>143000<CALL:5>W1ABC<EOR>tail" =
      some "<QSO_DATE:8>20240115<TIME_ON:6>143000<CALL:5>W1ABC<EOR>" := by
  decide

example : WsjtxListener.searchAdif "no record here" = none := by decide

/-- A well-formed cache key: nonempty and free of ASCII whitespace
(every SHA-256 hex digest is one). -/
def cleanKey (k : String) : Prop :=
  k ≠ "" ∧ ∀ c ∈ k.data, PyStr.isPyWS c = false

instance (k : String) : Decidable (cleanKey k) := by
  unfold cleanKey
  infer_instance

namespace PyStr

theorem splitNL_ne_nil (l : List Char) : splitNL l ≠ [] := by
  induction l with
  | nil => simp [splitNL]
  | cons c cs ih =>
    unfold splitNL
    by_cases hc : c = '\n'
    · simp [hc]
    · simp only [if_neg hc]
      cases splitNL cs <;> simp

theorem mem_of_mem_splitNL {x l : List Char} (hx : x ∈ splitNL l) {c : Char}
    (hc : c ∈ x) : c ∈ l := by
  induction l generalizing x with
  | nil =>
    simp only [splitNL, List.mem_singleton] at hx
    subst hx
    cases hc
  | cons d ds ih =>
    unfold splitNL at hx
    by_cases hd : d = '\n'
    · simp only [if_pos hd, List.mem_cons] at hx
      rcases hx with rfl | hx
      · cases hc
      · exact List.mem_cons_of_mem _ (ih hx hc)
    · simp only [if_neg hd] at hx
      rcases hr : splitNL ds with _ | ⟨r, rs⟩
      · exact absurd hr (splitNL_ne_nil ds)
      · rw [hr] at hx
        rcases List.mem_cons.mp hx with rfl | hx
        · rcases List.mem_cons.mp hc with rfl | hc
          · exact List.mem_cons_self _ _
          · exact List.mem_cons_of_mem _ (ih (by rw [hr]; exact List.mem_cons_self r rs) hc)
        · exact List.mem_cons_of_mem _ (ih (by rw [hr]; exact List.mem_cons_of_mem r hx) hc)

theorem not_nl_mem_of_mem_splitNL {x l : List Char} (hx : x ∈ splitNL l) :
    '\n' ∉ x := by
  intro hnl
  have := mem_of_mem_splitNL hx hnl
  induction l generalizing x with
  | nil =>
    simp only [splitNL, List.mem_singleton] at hx
    subst hx
    cases hnl
  | cons d ds ih =>
    unfold splitNL at hx
    by_cases hd : d = '\n'
    · simp only [if_pos hd, List.mem_cons] at hx
      rcases hx with rfl | hx
      · cases hnl
      · exact ih hx hnl (mem_of_mem_splitNL hx hnl)
    · simp only [if_neg hd] at hx
      rcases hr : splitNL ds with _ | ⟨r, rs⟩
      · exact absurd hr (splitNL_ne_nil ds)
      · rw [hr] at hx
        rcases List.mem_cons.mp hx with rfl | hx
        · rcases List.mem_cons.mp hnl with h | h
          · exact hd h.symm
          · have hrm : r ∈ splitNL ds := by rw [hr]; exact List.mem_cons_self r rs
            exact ih hrm h (mem_of_mem_splitNL hrm h)
        · have hxm : x ∈ splitNL ds := by rw [hr]; exact List.mem_cons_of_mem r hx
          exact ih hxm hnl (mem_of_mem_splitNL hxm hnl)

/-- A newline-free chunk glued onto the front extends the first line. -/
theorem splitNL_append_of_not_nl {a b : List Char} (ha : '\n' ∉ a) {h : List Char}
    {t : List (List Char)} (hb : splitNL b = h :: t) :
    splitNL (a ++ b) = (a ++ h) :: t := by
  induction a with
  | nil => simpa using hb
  | cons c cs ih =>
    have hc : c ≠ '\n' := fun hcc => ha (hcc ▸ List.mem_cons_self c cs)
    have ihc : splitNL (cs ++ b) = (cs ++ h) :: t :=
      ih fun hm => ha (List.mem_cons_of_mem c hm)
    simp only [List.cons_append]
    unfold splitNL
    rw [if_neg hc, ihc]

theorem splitNL_of_not_nl {a : List Char} (ha : '\n' ∉ a) : splitNL a = [a] := by
  have := splitNL_append_of_not_nl (b := []) ha (h := []) (t := []) rfl
  simpa using this

/-- `'\n'.join` and `split('\n')` are mutually inverse on nonempty
lists of newline-free pieces. -/
theorem splitNL_joinNL {L : List (List Char)} (hL : L ≠ [])
    (hnl : ∀ x ∈ L, '\n' ∉ x) : splitNL (joinNL L) = L := by
  induction L with
  | nil => exact absurd rfl hL
  | cons x xs ih =>
    cases xs with
    | nil => simpa [joinNL] using splitNL_of_not_nl (hnl x (List.mem_cons_self x []))
    | cons y ys =>
      have hx : '\n' ∉ x := hnl x (List.mem_cons_self _ _)
      have hrest : splitNL (joinNL (y :: ys)) = y :: ys :=
        ih (by simp) fun z hz => hnl z (List.mem_cons_of_mem x hz)
      have hcons : splitNL ('\n' :: joinNL (y :: ys)) = [] :: y :: ys := by
        unfold splitNL
        rw [if_pos rfl, hrest]
      have := splitNL_append_of_not_nl (b := '\n' :: joinNL (y :: ys)) hx hcons
      simpa [joinNL] using this

/-- All characters are strippable whitespace. -/
def allWS (w : List Char) : Prop := ∀ c ∈ w, isPyWS c = true

/-- A nonempty, whitespace-free chunk (the underlying characters of a
well-formed cache key). -/
def cleanChunk (x : List Char) : Prop := x ≠ [] ∧ ∀ c ∈ x, isPyWS c = false

theorem cleanChunk_not_nl {x : List Char} (hx : cleanChunk x) : '\n' ∉ x :=
  fun h => by simpa [isPyWS] using hx.2 '\n' h

theorem splitNL_cons_nl (cs : List Char) : splitNL ('\n' :: cs) = [] :: splitNL cs := by
  simp [splitNL]

theorem splitNL_cons_of_ne {c : Char} (hc : c ≠ '\n') {cs r : List Char}
    {rs : List (List Char)} (h : splitNL cs = r :: rs) :
    splitNL (c :: cs) = (c :: r) :: rs := by
  simp [splitNL, if_neg hc, h]

/-- Dropping an all-whitespace prefix preserves the clean lines. -/
theorem mem_splitNL_of_ws_append {x w m : List Char} (hx : cleanChunk x)
    (hw : allWS w) (h : x ∈ splitNL (w ++ m)) : x ∈ splitNL m := by
  induction w with
  | nil => simpa using h
  | cons d w' ih =>
    have hdw : isPyWS d = true := hw d (List.mem_cons_self _ _)
    have hw' : allWS w' := fun c hc => hw c (List.mem_cons_of_mem d hc)
    simp only [List.cons_append] at h
    unfold splitNL at h
    by_cases hd : d = '\n'
    · rw [if_pos hd] at h
      rcases List.mem_cons.mp h with rfl | h
      · exact absurd rfl hx.1
      · exact ih hw' h
    · rw [if_neg hd] at h
      rcases hr : splitNL (w' ++ m) with _ | ⟨r, rs⟩
      · exact absurd hr (splitNL_ne_nil _)
      · rw [hr] at h
        rcases List.mem_cons.mp h with rfl | h
        · have := hx.2 d (List.mem_cons_self _ _)
          rw [hdw] at this
          cases this
        · exact ih hw' (by rw [hr]; exact List.mem_cons_of_mem r h)

/-- The first line survives appending, provided an earlier newline
already closed it. -/
theorem splitNL_append_head_stable {m : List Char} (hm : '\n' ∈ m) (w : List Char)
    {r : List Char} {rs : List (List Char)} (h : splitNL m = r :: rs) :
    ∃ rs', splitNL (m ++ w) = r :: rs' := by
  induction m generalizing r rs with
  | nil => cases hm
  | cons c cs ih =>
    by_cases hc : c = '\n'
    · subst hc
      rw [splitNL_cons_nl] at h
      have hr : r = [] := (List.cons.injEq _ _ _ _ ▸ h).1.symm
      refine ⟨splitNL (cs ++ w), ?_⟩
      simp only [List.cons_append]
      rw [splitNL_cons_nl, hr]
    · have hmcs : '\n' ∈ cs := by
        rcases List.mem_cons.mp hm with h' | h'
        · exact absurd h'.symm hc
        · exact h'
      rcases hr : splitNL cs with _ | ⟨rc, rcs⟩
      · exact absurd hr (splitNL_ne_nil _)
      · rw [splitNL_cons_of_ne hc hr] at h
        obtain ⟨rs'', hrs''⟩ := ih hmcs hr
        refine ⟨rs'', ?_⟩
        simp only [List.cons_append]
        rw [splitNL_cons_of_ne hc hrs'']
        have : r = c :: rc := ((List.cons.injEq _ _ _ _ ▸ h).1).symm
        rw [this]

/-- Dropping an all-whitespace suffix preserves the clean lines (stated
together with the tail version needed for the induction). -/
theorem mem_splitNL_of_append_ws {x w : List Char} (hx : cleanChunk x)
    (hw : allWS w) : ∀ m : List Char,
    (x ∈ splitNL (m ++ w) → x ∈ splitNL m) ∧
    (x ∈ (splitNL (m ++ w)).tail → x ∈ (splitNL m).tail) := by
  intro m
  induction m with
  | nil =>
    have habs : x ∈ splitNL w → False := by
      intro h
      rcases x with _ | ⟨c, x'⟩
      · exact hx.1 rfl
      · have hcw : c ∈ w := mem_of_mem_splitNL h (List.mem_cons_self _ _)
        have := hx.2 c (List.mem_cons_self _ _)
        rw [hw c hcw] at this
        cases this
    constructor
    · intro h
      exact absurd h (fun h => habs (by simpa using h))
    · intro h
      refine absurd (habs ?_) id
      rcases hsw : splitNL w with _ | ⟨r, rs⟩
      · exact absurd hsw (splitNL_ne_nil _)
      · rw [List.nil_append, hsw] at h
        exact hsw ▸ List.mem_cons_of_mem r h
  | cons d m' ih =>
    by_cases hd : d = '\n'
    · constructor
      · intro h
        simp only [List.cons_append] at h
        unfold splitNL at h
        rw [if_pos hd] at h
        unfold splitNL
        rw [if_pos hd]
        rcases List.mem_cons.mp h with rfl | h
        · exact List.mem_cons_self _ _
        · exact List.mem_cons_of_mem _ (ih.1 h)
      · intro h
        simp only [List.cons_append] at h
        unfold splitNL at h
        rw [if_pos hd] at h
        unfold splitNL
        rw [if_pos hd]
        simp only [List.tail_cons] at h ⊢
        exact ih.1 h
    · rcases hr : splitNL m' with _ | ⟨r, rs⟩
      · exact absurd hr (splitNL_ne_nil _)
      rcases hr' : splitNL (m' ++ w) with _ | ⟨r', rs'⟩
      · exact absurd hr' (splitNL_ne_nil _)
      have hbig : splitNL (d :: m' ++ w) = (d :: r') :: rs' := by
        simp only [List.cons_append]
        unfold splitNL
        rw [if_neg hd, hr']
      have hsmall : splitNL (d :: m') = (d :: r) :: rs := by
        unfold splitNL
        rw [if_neg hd, hr]
      have htail : x ∈ rs' → x ∈ rs := by
        intro h
        have := ih.2
        rw [hr, hr'] at this
        exact this h
      constructor
      · intro h
        rw [hbig] at h
        rw [hsmall]
        rcases List.mem_cons.mp h with hx' | h
        · -- x is the (possibly extended) first line
          by_cases hnl : '\n' ∈ m'
          · obtain ⟨rs'', hrs''⟩ := splitNL_append_head_stable hnl w hr
            rw [hr'] at hrs''
            have : r' = r := ((List.cons.injEq _ _ _ _ ▸ hrs'').1)
            rw [hx', this]
            exact List.mem_cons_self _ _
          · have hm' : splitNL m' = [m'] := splitNL_of_not_nl hnl
            rw [hm'] at hr
            have hrm : r = m' := by
              exact ((List.cons.injEq _ _ _ _ ▸ hr).1).symm
            rcases hsw : splitNL w with _ | ⟨h0, t0⟩
            · exact absurd hsw (splitNL_ne_nil _)
            have : splitNL (m' ++ w) = (m' ++ h0) :: t0 :=
              splitNL_append_of_not_nl hnl hsw
            rw [hr'] at this
            have hr'eq : r' = m' ++ h0 := ((List.cons.injEq _ _ _ _ ▸ this).1)
            have hh0 : h0 = [] := by
              rcases h0 with _ | ⟨c0, h0'⟩
              · rfl
              · exfalso
                have hc0x : c0 ∈ x := by
                  rw [hx', hr'eq]
                  exact List.mem_cons_of_mem d
                    (List.mem_append_right m' (List.mem_cons_self _ _))
                have hc0w : c0 ∈ w :=
                  mem_of_mem_splitNL (hsw ▸ List.mem_cons_self _ _)
                    (List.mem_cons_self _ _)
                have := hx.2 c0 hc0x
                rw [hw c0 hc0w] at this
                cases this
            rw [hx', hr'eq, hh0, List.append_nil, ← hrm]
            exact List.mem_cons_self _ _
        · exact List.mem_cons_of_mem _ (htail h)
      · intro h
        rw [hbig] at h
        rw [hsmall]
        simp only [List.tail_cons] at h ⊢
        exact htail h

/-- A clean line of a string is still a line after `strip()`. -/
theorem mem_splitNL_stripChars {x l : List Char} (hx : cleanChunk x)
    (h : x ∈ splitNL l) : x ∈ splitNL (stripChars l) := by
  set u := l.dropWhile isPyWS with hu
  have hl : l = l.takeWhile isPyWS ++ u := (List.takeWhile_append_dropWhile isPyWS l).symm
  have hu2 : u = stripChars l ++ (u.reverse.takeWhile isPyWS).reverse := by
    have : u.reverse.takeWhile isPyWS ++ u.reverse.dropWhile isPyWS = u.reverse :=
      List.takeWhile_append_dropWhile isPyWS u.reverse
    calc u = u.reverse.reverse := (List.reverse_reverse u).symm
      _ = (u.reverse.takeWhile isPyWS ++ u.reverse.dropWhile isPyWS).reverse := by rw [this]
      _ = (u.reverse.dropWhile isPyWS).reverse ++ (u.reverse.takeWhile isPyWS).reverse := by
            rw [List.reverse_append]
      _ = stripChars l ++ (u.reverse.takeWhile isPyWS).reverse := rfl
  have hw1 : allWS (l.takeWhile isPyWS) := fun c hc => List.mem_takeWhile_imp hc
  have hw2 : allWS (u.reverse.takeWhile isPyWS).reverse := fun c hc =>
    List.mem_takeWhile_imp (List.mem_reverse.mp hc)
  rw [hl, hu2] at h
  have h1 : x ∈ splitNL (stripChars l ++ (u.reverse.takeWhile isPyWS).reverse) :=
    mem_splitNL_of_ws_append hx hw1 h
  exact (mem_splitNL_of_append_ws hx hw2 (stripChars l)).1 h1

theorem lexLe_total (a b : List Char) : lexLe a b = true ∨ lexLe b a = true := by
  induction a generalizing b with
  | nil => left; rfl
  | cons a1 as ih =>
    cases b with
    | nil => right; rfl
    | cons b1 bs =>
      rcases Nat.lt_trichotomy a1.toNat b1.toNat with h | h | h
      · left
        simp [lexLe, h]
      · rcases ih bs with h' | h'
        · left
          simp [lexLe, h, h']
        · right
          simp [lexLe, h.symm, h']
      · right
        simp [lexLe, h]

theorem lexLe_trans {a b c : List Char} (hab : lexLe a b = true)
    (hbc : lexLe b c = true) : lexLe a c = true := by
  induction a generalizing b c with
  | nil => rfl
  | cons a1 as ih =>
    cases b with
    | nil => simp [lexLe] at hab
    | cons b1 bs =>
      cases c with
      | nil => simp [lexLe] at hbc
      | cons c1 cs =>
        simp only [lexLe] at hab hbc ⊢
        by_cases h1 : a1.toNat < b1.toNat
        · by_cases h2 : b1.toNat < c1.toNat
          · rw [if_pos (Nat.lt_trans h1 h2)]
          · rw [if_pos h1] at hab
            by_cases h3 : c1.toNat < b1.toNat
            · rw [if_neg h2, if_pos h3] at hbc
              cases hbc
            · have : b1.toNat = c1.toNat := Nat.le_antisymm (Nat.le_of_not_lt h3) (Nat.le_of_not_lt h2)
              rw [if_pos (this ▸ h1)]
        · by_cases h1' : b1.toNat < a1.toNat
          · rw [if_neg h1, if_pos h1'] at hab
            cases hab
          · have hab' : lexLe as bs = true := by
              rw [if_neg h1, if_neg h1'] at hab
              exact hab
            have heq : a1.toNat = b1.toNat :=
              Nat.le_antisymm (Nat.le_of_not_lt h1') (Nat.le_of_not_lt h1)
            by_cases h2 : b1.toNat < c1.toNat
            · rw [if_pos (heq ▸ h2)]
            · by_cases h3 : c1.toNat < b1.toNat
              · rw [if_neg h2, if_pos h3] at hbc
                cases hbc
              · have hbc' : lexLe bs cs = true := by
                  rw [if_neg h2, if_neg h3] at hbc
                  exact hbc
                rw [if_neg (heq ▸ h2), if_neg (fun h => h3 (heq ▸ h)), ]
                exact ih hab' hbc'

theorem pyLe_total (a b : String) : pyLe a b = true ∨ pyLe b a = true :=
  lexLe_total a.data b.data

theorem pyLe_trans {a b c : String} (hab : pyLe a b = true) (hbc : pyLe b c = true) :
    pyLe a c = true :=
  lexLe_trans hab hbc

theorem insSorted_perm (x : String) (l : List String) :
    List.Perm (insSorted x l) (x :: l) := by
  induction l with
  | nil => exact List.Perm.refl _
  | cons y ys ih =>
    unfold insSorted
    by_cases h : pyLe x y = true
    · rw [if_pos h]
    · rw [if_neg h]
      exact List.Perm.trans (ih.cons y) (List.Perm.swap x y ys)

theorem pySorted_perm (l : List String) : List.Perm (pySorted l) l := by
  induction l with
  | nil => exact List.Perm.refl _
  | cons x xs ih => exact List.Perm.trans (insSorted_perm x (pySorted xs)) (ih.cons x)

theorem mem_pySorted {x : String} {l : List String} : x ∈ pySorted l ↔ x ∈ l :=
  (pySorted_perm l).mem_iff

theorem pairwise_insSorted {x : String} {l : List String}
    (h : List.Pairwise (fun a b => pyLe a b = true) l) :
    List.Pairwise (fun a b => pyLe a b = true) (insSorted x l) := by
  induction l with
  | nil => simp [insSorted]
  | cons y ys ih =>
    rcases List.pairwise_cons.mp h with ⟨hy, hys⟩
    unfold insSorted
    by_cases hxy : pyLe x y = true
    · rw [if_pos hxy]
      refine List.pairwise_cons.mpr ⟨?_, h⟩
      intro z hz
      rcases List.mem_cons.mp hz with rfl | hz
      · exact hxy
      · exact pyLe_trans hxy (hy z hz)
    · rw [if_neg hxy]
      refine List.pairwise_cons.mpr ⟨?_, ih hys⟩
      intro z hz
      have hz' : z ∈ x :: ys := (insSorted_perm x ys).mem_iff.mp hz
      rcases List.mem_cons.mp hz' with rfl | h'
      · rcases pyLe_total z y with h'' | h''
        · exact absurd h'' hxy
        · exact h''
      · exact hy z h'

theorem pairwise_pySorted (l : List String) :
    List.Pairwise (fun a b => pyLe a b = true) (pySorted l) := by
  induction l with
  | nil => simp [pySorted]
  | cons x xs ih => exact pairwise_insSorted ih

/-- The joined content of nonempty whitespace-free pieces does not end
in a newline. -/
theorem joinNL_getLast_ne_nl {L : List (List Char)} (hL : L ≠ [])
    (h : ∀ x ∈ L, cleanChunk x) : (joinNL L).getLast? ≠ some '\n' := by
  induction L with
  | nil => exact absurd rfl hL
  | cons x xs ih =>
    cases xs with
    | nil =>
      have hx := h x (List.mem_cons_self _ _)
      show x.getLast? ≠ some '\n'
      rw [List.getLast?_eq_getLast_of_ne_nil hx.1]
      intro hc
      have hmem : x.getLast hx.1 ∈ x := List.getLast_mem hx.1
      have := hx.2 _ hmem
      rw [Option.some.injEq] at hc
      rw [hc] at this
      simp [isPyWS] at this
    | cons y ys =>
      have hrec : (joinNL (y :: ys)).getLast? ≠ some '\n' :=
        ih (by simp) fun z hz => h z (List.mem_cons_of_mem x hz)
      show (x ++ '\n' :: joinNL (y :: ys)).getLast? ≠ some '\n'
      rw [List.getLast?_append_cons]
      rcases hj : joinNL (y :: ys) with _ | ⟨z, zs⟩
      · exfalso
        cases ys with
        | nil => exact (h y (List.mem_cons_of_mem x (List.mem_cons_self _ _))).1 (by simpa [joinNL] using hj)
        | cons u us => simp [joinNL] at hj
      · have : ('\n' :: z :: zs).getLast? = (z :: zs).getLast? :=
          List.getLast?_append_cons ['\n'] z zs
        rw [this, ← hj]
        exact hrec

end PyStr

namespace Sha256

theorem toHexFixed_length (len n : Nat) : (toHexFixed len n).length = len := by
  induction len generalizing n with
  | zero => rfl
  | succ k ih => simp [toHexFixed, ih]

theorem not_ws_of_mem_toHexFixed {len n : Nat} {c : Char}
    (h : c ∈ toHexFixed len n) : PyStr.isPyWS c = false := by
  induction len generalizing n with
  | zero => cases h
  | succ k ih =>
    simp only [toHexFixed, List.mem_append, List.mem_singleton] at h
    rcases h with h | rfl
    · exact ih h
    · have hlt : n % 16 < 16 := Nat.mod_lt _ (by omega)
      have hall : ∀ j < 16, PyStr.isPyWS (hexChar j) = false := by decide
      exact hall _ hlt

theorem not_ws_of_mem_digestChars {h : HState} {c : Char}
    (hc : c ∈ digestChars h) : PyStr.isPyWS c = false := by
  simp only [digestChars, List.mem_append] at hc
  rcases hc with ((((((h1 | h1) | h1) | h1) | h1) | h1) | h1) | h1 <;>
    exact not_ws_of_mem_toHexFixed h1

theorem digestChars_length (h : HState) : (digestChars h).length = 64 := by
  simp [digestChars, toHexFixed_length]

/-- Every hex digest is a well-formed cache key. -/
theorem sha256hex_cleanKey (s : String) : cleanKey (sha256hex s) := by
  constructor
  · intro h
    have : (sha256hex s).data = [] := by rw [h]
    have hlen := digestChars_length (sha256 (strBytes s))
    rw [show (sha256hex s).data = digestChars (sha256 (strBytes s)) from rfl] at this
    rw [this] at hlen
    cases hlen
  · intro c hc
    exact not_ws_of_mem_digestChars hc

end Sha256

namespace AdifParser

theorem calculate_hash_eq_empty_iff {t : String} :
    calculate_hash t = "" ↔ parse_line t = none := by
  unfold calculate_hash
  cases h : parse_line t with
  | none => simp
  | some r =>
    simp only [iff_false, ne_eq]
    constructor
    · intro he
      exact absurd he (Sha256.sha256hex_cleanKey _).1
    · intro he
      cases he

theorem calculate_hash_cleanKey {t : String} {r : Record}
    (h : parse_line t = some r) : cleanKey (calculate_hash t) := by
  unfold calculate_hash
  rw [h]
  exact Sha256.sha256hex_cleanKey _

theorem cleanKey_of_hash_ne_empty {t : String} (h : calculate_hash t ≠ "") :
    cleanKey (calculate_hash t) := by
  cases hp : parse_line t with
  | none => exact absurd (calculate_hash_eq_empty_iff.mpr hp) h
  | some r => exact calculate_hash_cleanKey hp

end AdifParser

/-- A string's characters form a clean chunk iff the key is clean. -/
theorem cleanChunk_data_of_cleanKey {k : String} (h : cleanKey k) :
    PyStr.cleanChunk k.data := by
  refine ⟨?_, h.2⟩
  intro hd
  exact h.1 (congrArg String.mk hd)

namespace Config

theorem mem_map_mk {k : String} {L : List (List Char)} :
    k ∈ L.map (fun l => (⟨l⟩ : String)) ↔ k.data ∈ L := by
  constructor
  · intro h
    rcases List.mem_map.mp h with ⟨x, hx, hxk⟩
    rw [← hxk]
    exact hx
  · intro h
    exact List.mem_map.mpr ⟨k.data, h, rfl⟩

theorem not_nl_of_mem_load {k : String} {file : CacheFile}
    (h : k ∈ load_uploaded_qsos file) : '\n' ∉ k.data := by
  cases file with
  | none => cases h
  | some c =>
    unfold load_uploaded_qsos at h
    have h1 := List.mem_dedup.mp h
    have h2 : k.data ∈ PyStr.splitNL (PyStr.stripChars c.data) := by
      unfold PyStr.pySplitNL at h1
      exact mem_map_mk.mp h1
    exact PyStr.not_nl_mem_of_mem_splitNL h2

/-- Clean keys in the written set are found again by the next load:
the central round-trip property of `save_uploaded_qso`. -/
theorem mem_load_save {file : CacheFile} {k k' : String} (hk' : cleanKey k')
    (hknl : '\n' ∉ k.data)
    (hmem : k' ∈ (load_uploaded_qsos file).insert k) :
    k' ∈ load_uploaded_qsos (some (save_uploaded_qso file k)) := by
  set L := PyStr.pySorted ((load_uploaded_qsos file).insert k) with hL
  have hk'L : k' ∈ L := PyStr.mem_pySorted.mpr hmem
  have hLnl : ∀ x ∈ L.map String.data, '\n' ∉ x := by
    intro x hx
    rcases List.mem_map.mp hx with ⟨y, hy, rfl⟩
    rcases List.mem_insert_iff.mp (PyStr.mem_pySorted.mp hy) with rfl | hy'
    · exact hknl
    · exact not_nl_of_mem_load hy'
  have hLne : L.map String.data ≠ [] := by
    intro h
    rw [List.map_eq_nil_iff] at h
    rw [h] at hk'L
    cases hk'L
  have hsplit : PyStr.splitNL (PyStr.joinNL (L.map String.data)) = L.map String.data :=
    PyStr.splitNL_joinNL hLne hLnl
  have hmem2 : k'.data ∈ PyStr.splitNL (PyStr.joinNL (L.map String.data)) := by
    rw [hsplit]
    exact List.mem_map.mpr ⟨k', hk'L, rfl⟩
  have hmem3 : k'.data ∈ PyStr.splitNL (PyStr.stripChars (PyStr.joinNL (L.map String.data))) :=
    PyStr.mem_splitNL_stripChars (cleanChunk_data_of_cleanKey hk') hmem2
  show k' ∈ load_uploaded_qsos (some (PyStr.pyJoinNL L))
  unfold load_uploaded_qsos PyStr.pySplitNL
  refine List.mem_dedup.mpr (mem_map_mk.mpr ?_)
  exact hmem3

/-- Loading never yields fewer clean keys after a further save. -/
theorem mem_load_save_of_mem {file : CacheFile} {k k' : String} (hk' : cleanKey k')
    (hknl : '\n' ∉ k.data) (h : k' ∈ load_uploaded_qsos file) :
    k' ∈ load_uploaded_qsos (some (save_uploaded_qso file k)) :=
  mem_load_save hk' hknl (List.mem_insert_of_mem h)

/-- The saved key itself is found again by the next load. -/
theorem self_mem_load_save {file : CacheFile} {k : String} (hk : cleanKey k) :
    k ∈ load_uploaded_qsos (some (save_uploaded_qso file k)) :=
  mem_load_save hk (fun h => by simpa [PyStr.isPyWS] using hk.2 '\n' h)
    (List.mem_insert_self _ _)

end Config

/-- The five identifying field values hashed by `calculate_hash`, in
hash order: `(qso_date, time_on, call, freq, mode)`. -/
def fiveTuple (r : Record) : String × String × String × String × String :=
  (r.getD "qso_date" "", r.getD "time_on" "", r.getD "call" "",
   r.getD "freq" "", r.getD "mode" "")

theorem parse_line_empty : AdifParser.parse_line "" = none := rfl

namespace CloudlogPusher

/-- When the line parses, the POSTed payload is always the fixed
envelope around the raw line, whatever the network outcome. -/
theorem push_record_payload (cfg : PushConfig) (net : Network) (line : String)
    {r : Record} (h : AdifParser.parse_line line = some r) :
    (push_record cfg net line).2 =
      some ⟨cfg.apikey, cfg.stationid, "adif", line⟩ := by
  unfold push_record
  rw [h]
  cases hn : net ⟨cfg.apikey, cfg.stationid, "adif", line⟩ with
  | ok p =>
    rcases p with ⟨status, text⟩
    by_cases hs : status = 200 ∨ status = 201
    · simp [hn, hs]
    · simp [hn, hs]
  | error e => simp [hn]

/-- A blank or comment line leaves the run state untouched. -/
theorem push_file_step_blank (cfg : PushConfig) (net : Network) (uh : List String)
    (st : FileRun) (line : String)
    (h : PyStr.pyStrip line = "" ∨ PyStr.pyStartsWith (PyStr.pyStrip line) "#" = true) :
    push_file_step cfg net uh st line = st := by
  unfold push_file_step
  rw [if_pos h]

/-- A line whose hash is a known duplicate only bumps `skipped`. -/
theorem push_file_step_skip (cfg : PushConfig) (net : Network) (uh : List String)
    (st : FileRun) (line : String)
    (hne : ¬(PyStr.pyStrip line = "" ∨ PyStr.pyStartsWith (PyStr.pyStrip line) "#" = true))
    (hdup : AdifParser.calculate_hash (PyStr.pyStrip line) ≠ "" ∧
            AdifParser.calculate_hash (PyStr.pyStrip line) ∈ uh) :
    push_file_step cfg net uh st line = { st with skipped := st.skipped + 1 } := by
  unfold push_file_step
  rw [if_neg hne, if_pos hdup]

/-- A successfully pushed line bumps `success`, persists the hash (when
nonempty) and logs the payload. -/
theorem push_file_step_success (cfg : PushConfig) (net : Network) (uh : List String)
    (st : FileRun) (line : String)
    (hne : ¬(PyStr.pyStrip line = "" ∨ PyStr.pyStartsWith (PyStr.pyStrip line) "#" = true))
    (hdup : ¬(AdifParser.calculate_hash (PyStr.pyStrip line) ≠ "" ∧
              AdifParser.calculate_hash (PyStr.pyStrip line) ∈ uh))
    (hok : (push_record cfg net (PyStr.pyStrip line)).1.1 = true) :
    push_file_step cfg net uh st line =
      { st with
        success := st.success + 1
        disk := if AdifParser.calculate_hash (PyStr.pyStrip line) ≠ "" then
                  some (Config.save_uploaded_qso st.disk
                    (AdifParser.calculate_hash (PyStr.pyStrip line)))
                else st.disk
        calls := st.calls ++ ((push_record cfg net (PyStr.pyStrip line)).2).toList } := by
  unfold push_file_step
  rw [if_neg hne, if_neg hdup, if_pos hok]

/-- A failed push bumps `failed` and logs the attempted payload, but
never touches the cache. -/
theorem push_file_step_fail (cfg : PushConfig) (net : Network) (uh : List String)
    (st : FileRun) (line : String)
    (hne : ¬(PyStr.pyStrip line = "" ∨ PyStr.pyStartsWith (PyStr.pyStrip line) "#" = true))
    (hdup : ¬(AdifParser.calculate_hash (PyStr.pyStrip line) ≠ "" ∧
              AdifParser.calculate_hash (PyStr.pyStrip line) ∈ uh))
    (hko : (push_record cfg net (PyStr.pyStrip line)).1.1 = false) :
    push_file_step cfg net uh st line =
      { st with
        failed := st.failed + 1
        calls := st.calls ++ ((push_record cfg net (PyStr.pyStrip line)).2).toList } := by
  unfold push_file_step
  rw [if_neg hne, if_neg hdup, if_neg (by rw [hko]; exact Bool.false_ne_true)]

end CloudlogPusher

/-- A configuration used for concrete checks. -/
def cfgW : PushConfig := ⟨"https://cloudlog.example.com", "key0", "station1"⟩

/-- A network that accepts every record with status 200. -/
def netOK : Network := fun _ => Except.ok (200, "")

/-- A network that rejects every record with status 500. -/
def net500 : Network := fun _ => Except.ok (500, "Internal Server Error")

/-- The spec's end-to-end example record line. -/
def lineEx : String :=
  "<QSO_DATE:8>20240115<TIME_ON:6>143000<CALL:5>W1ABC<FREQ:8>14.07400<MODE:3>FT8<EOR>"

/-- `lineEx` with reordered tags, lowercased names, wrong declared
lengths and extra leading whitespace, but identical field values. -/
def lineExPerm : String :=
  "   <mode:3>FT8<freq:8>14.07400<call:1>W1ABC<qso_date:4>20240115<time_on:6>143000"

/-- C3.  For every pair of valid record texts whose `QSO_DATE`,
`TIME_ON`, `CALL`, `FREQ` and `MODE` field values are equal,
`calculate_hash` returns the same key — in particular regardless of tag
ordering, extra whitespace, or declared tag lengths, since none of
those affect the parsed field values. -/
theorem duplicate_key_determined_by_fiveTuple (l1 l2 : String) (r1 r2 : Record)
    (h1 : AdifParser.parse_line l1 = some r1) (h2 : AdifParser.parse_line l2 = some r2)
    (ht : fiveTuple r1 = fiveTuple r2) :
    AdifParser.calculate_hash l1 = AdifParser.calculate_hash l2 := by
  unfold AdifParser.calculate_hash
  rw [h1, h2]
  show Sha256.sha256hex (AdifParser.normalizedString r1) =
    Sha256.sha256hex (AdifParser.normalizedString r2)
  unfold AdifParser.normalizedString
  simp only [fiveTuple, Prod.mk.injEq] at ht
  obtain ⟨e1, e2, e3, e4, e5⟩ := ht
  rw [e1, e2, e3, e4, e5]

/-- Witness for C3 at the spec's example line and a permuted,
whitespace- and length-perturbed variant of it. -/
theorem duplicate_key_determined_by_fiveTuple_witness :
    AdifParser.calculate_hash lineEx = AdifParser.calculate_hash lineExPerm :=
  duplicate_key_determined_by_fiveTuple lineEx lineExPerm
    [("qso_date", "20240115"), ("time_on", "143000"), ("call", "W1ABC"),
     ("freq", "14.07400"), ("mode", "FT8")]
    [("mode", "FT8"), ("freq", "14.07400"), ("call", "W1ABC"),
     ("qso_date", "20240115"), ("time_on", "143000")]
    (by decide) (by decide) (by decide)

/-- C10.  Two valid record texts with different identifying tuples can
collide: the five values are joined with a bare `_` before hashing, so
date `2024_x` with empty time and date `2024` with time `x_` produce
the same normalized string and hence the same duplicate key. -/
theorem duplicate_key_collision :
    (AdifParser.parse_line "<QSO_DATE:6>2024_x<TIME_ON:0><CALL:3>AAA").isSome = true ∧
    (AdifParser.parse_line "<QSO_DATE:4>2024<TIME_ON:2>x_<CALL:3>AAA").isSome = true ∧
    (AdifParser.parse_line "<QSO_DATE:6>2024_x<TIME_ON:0><CALL:3>AAA").map fiveTuple ≠
      (AdifParser.parse_line "<QSO_DATE:4>2024<TIME_ON:2>x_<CALL:3>AAA").map fiveTuple ∧
    AdifParser.calculate_hash "<QSO_DATE:6>2024_x<TIME_ON:0><CALL:3>AAA" =
      AdifParser.calculate_hash "<QSO_DATE:4>2024<TIME_ON:2>x_<CALL:3>AAA" := by
  refine ⟨by decide, by decide, by decide, ?_⟩
  show Sha256.sha256hex (AdifParser.normalizedString
      [("qso_date", "2024_x"), ("time_on", ""), ("call", "AAA")]) =
    Sha256.sha256hex (AdifParser.normalizedString
      [("qso_date", "2024"), ("time_on", "x_"), ("call", "AAA")])
  congr 1

/-- A record line carrying a `TX_PWR` value with a trailing unit
letter. -/
def linePwr : String :=
  "<QSO_DATE:8>20240115<TIME_ON:6>143000<CALL:5>W1ABC<TX_PWR:4>100W<EOR>"

/-- Modelled from the spec: the one normalization that §4.3 claims for
the transmitted text is the identity everywhere except on the `TX_PWR`
value, so the claim entails that the transmitted `TX_PWR` value equals
`spec_strip_power_unit` of the original value. -/
theorem spec_strip_power_unit_changes : spec_strip_power_unit "100W" = "100" := by decide

/-- C2 counterexample.  `push_record` puts the raw line — with its
`TX_PWR` value untouched — into the payload's `string` field: the
cleanup claimed by the spec never reaches the wire. -/
theorem push_record_txpwr_not_applied :
    (CloudlogPusher.push_record cfgW netOK linePwr).2 =
      some ⟨"key0", "station1", "adif", linePwr⟩ ∧
    (AdifParser.parse_line linePwr).map (fun r => r.getD "tx_pwr" "") = some "100W" ∧
    spec_strip_power_unit "100W" ≠ "100W" := by
  refine ⟨?_, by decide, by decide⟩
  decide

/-- C2 amended.  For every line that parses, the payload's `string`
field is the original record text forwarded verbatim, with no
modification at all: the `TX_PWR` cleanup mutates only the parsed
in-memory record, which is then discarded. -/
theorem push_record_payload_verbatim (cfg : PushConfig) (net : Network)
    (line : String) (r : Record) (h : AdifParser.parse_line line = some r) :
    (CloudlogPusher.push_record cfg net line).2 =
      some ⟨cfg.apikey, cfg.stationid, "adif", line⟩ :=
  CloudlogPusher.push_record_payload cfg net line h

/-- Witness for the amended C2 at a concrete powered record. -/
theorem push_record_payload_verbatim_witness :
    (CloudlogPusher.push_record cfgW net500 linePwr).2 =
      some ⟨"key0", "station1", "adif", linePwr⟩ :=
  push_record_payload_verbatim cfgW net500 linePwr
    [("qso_date", "20240115"), ("time_on", "143000"), ("call", "W1ABC"),
     ("tx_pwr", "100W")]
    (by decide)

/-- C6 counterexample.  The unrestricted claim fails twice: adding an
already-present key to a non-canonically formatted file rewrites it
(`"b\na"` becomes `"a\nb"`), and a key containing a newline is split
apart by the next load, so `load` after `add` does not contain it. -/
theorem cache_roundtrip_counterexample :
    ("a" ∈ Config.load_uploaded_qsos (some "b\na")) ∧
    Config.save_uploaded_qso (some "b\na") "a" = "a\nb" ∧
    ("a\nb" : String) ≠ "b\na" ∧
    "a\nb" ∉ Config.load_uploaded_qsos (some (Config.save_uploaded_qso none "a\nb")) := by
  decide

/-- C6 amended.  For every nonempty whitespace-free key `k`: after
`add(k)` a `load` returns a set containing `k`; after `clear()` a
`load` returns the empty set; and `add(k)` with `k` already present
leaves the persisted content unchanged whenever the file is in the
sorted canonical form that `add` itself writes. -/
theorem cache_roundtrip :
    (∀ (file : Config.CacheFile) (k : String), cleanKey k →
        k ∈ Config.load_uploaded_qsos (some (Config.save_uploaded_qso file k))) ∧
    (∀ file : Config.CacheFile,
        Config.load_uploaded_qsos (Config.clear_cache file) = []) ∧
    (∀ c k : String, k ∈ Config.load_uploaded_qsos (some c) →
        c = PyStr.pyJoinNL (PyStr.pySorted (Config.load_uploaded_qsos (some c))) →
        Config.save_uploaded_qso (some c) k = c) := by
  refine ⟨?_, ?_, ?_⟩
  · intro file k hk
    exact Config.self_mem_load_save hk
  · intro file
    rfl
  · intro c k hk hcan
    unfold Config.save_uploaded_qso
    rw [List.insert_of_mem hk]
    exact hcan.symm

/-- Witness for the amended C6 at concrete keys and cache states. -/
theorem cache_roundtrip_witness :
    ("k1" ∈ Config.load_uploaded_qsos (some (Config.save_uploaded_qso none "k1"))) ∧
    Config.load_uploaded_qsos (Config.clear_cache (some "x\ny")) = [] ∧
    Config.save_uploaded_qso (some "a\nb") "a" = "a\nb" :=
  ⟨cache_roundtrip.1 none "k1" (by decide),
   cache_roundtrip.2.1 (some "x\ny"),
   cache_roundtrip.2.2 "a\nb" "a" (by decide) (by decide)⟩

/-- C8 counterexample.  The persisted content is not
newline-terminated: `'\n'.join` leaves no trailing separator. -/
theorem cache_file_not_newline_terminated :
    Config.save_uploaded_qso none "a" = "a" ∧
    (Config.save_uploaded_qso none "a").data.getLast? ≠ some '\n' := by
  decide

/-- C8 amended.  After an add of a nonempty whitespace-free key to a
cache whose loaded entries are likewise clean, the persisted file holds
exactly the cached keys, one per line, with no repetition, sorted
ascending, joined by single newlines with no trailing newline; a load
when the file is absent returns the empty set. -/
theorem cache_file_format (file : Config.CacheFile) (k : String) (hk : cleanKey k)
    (hall : ∀ x ∈ Config.load_uploaded_qsos file, cleanKey x) :
    PyStr.pySplitNL (Config.save_uploaded_qso file k) =
      PyStr.pySorted ((Config.load_uploaded_qsos file).insert k) ∧
    (PyStr.pySplitNL (Config.save_uploaded_qso file k)).Nodup ∧
    List.Pairwise (fun a b => PyStr.pyLe a b = true)
      (PyStr.pySplitNL (Config.save_uploaded_qso file k)) ∧
    (Config.save_uploaded_qso file k).data.getLast? ≠ some '\n' ∧
    Config.load_uploaded_qsos none = [] := by
  set L := PyStr.pySorted ((Config.load_uploaded_qsos file).insert k) with hLdef
  have hclean : ∀ x ∈ L, cleanKey x := by
    intro x hx
    rcases List.mem_insert_iff.mp (PyStr.mem_pySorted.mp hx) with rfl | hx'
    · exact hk
    · exact hall x hx'
  have hLnl : ∀ x ∈ L.map String.data, '\n' ∉ x := by
    intro x hx
    rcases List.mem_map.mp hx with ⟨y, hy, rfl⟩
    exact PyStr.cleanChunk_not_nl (cleanChunk_data_of_cleanKey (hclean y hy))
  have hkL : k ∈ L := PyStr.mem_pySorted.mpr (List.mem_insert_self _ _)
  have hLne : L.map String.data ≠ [] := by
    intro h
    rw [List.map_eq_nil_iff] at h
    rw [h] at hkL
    cases hkL
  have hsplit : PyStr.splitNL (PyStr.joinNL (L.map String.data)) = L.map String.data :=
    PyStr.splitNL_joinNL hLne hLnl
  have hlines : PyStr.pySplitNL (Config.save_uploaded_qso file k) = L := by
    show (PyStr.splitNL (PyStr.joinNL (L.map String.data))).map (fun l => (⟨l⟩ : String)) = L
    rw [hsplit, List.map_map]
    exact List.map_id L
  refine ⟨hlines, ?_, ?_, ?_, rfl⟩
  · rw [hlines]
    have hnodup : ((Config.load_uploaded_qsos file).insert k).Nodup := by
      cases file with
      | none => simp [Config.load_uploaded_qsos, List.Nodup.insert, List.nodup_nil]
      | some c =>
        exact (List.nodup_dedup _).insert
    exact ((PyStr.pySorted_perm _).nodup_iff).mpr hnodup
  · rw [hlines]
    exact PyStr.pairwise_pySorted _
  · show (PyStr.joinNL (L.map String.data)).getLast? ≠ some '\n'
    refine PyStr.joinNL_getLast_ne_nl hLne ?_
    intro x hx
    rcases List.mem_map.mp hx with ⟨y, hy, rfl⟩
    exact cleanChunk_data_of_cleanKey (hclean y hy)

/-- Witness for the amended C8 at a concrete add. -/
theorem cache_file_format_witness :
    PyStr.pySplitNL (Config.save_uploaded_qso (some "bb") "aa") =
      PyStr.pySorted ((Config.load_uploaded_qsos (some "bb")).insert "aa") ∧
    (PyStr.pySplitNL (Config.save_uploaded_qso (some "bb") "aa")).Nodup ∧
    List.Pairwise (fun a b => PyStr.pyLe a b = true)
      (PyStr.pySplitNL (Config.save_uploaded_qso (some "bb") "aa")) ∧
    (Config.save_uploaded_qso (some "bb") "aa").data.getLast? ≠ some '\n' ∧
    Config.load_uploaded_qsos none = [] :=
  cache_file_format (some "bb") "aa" (by decide) (by decide)

/-- How `_parse_message` proceeds once a record has been extracted from
the datagram text. -/
theorem parse_message_found (cfg : PushConfig) (net : Network) (disk : Config.CacheFile)
    (mem : List String) (text a : String)
    (hc : ¬(¬ PyStr.pyContains text "<QSO_DATE:" = true ∨
            ¬ PyStr.pyContains text "<CALL:" = true))
    (hs : WsjtxListener.searchAdif text = some a) :
    WsjtxListener.parse_message cfg net disk mem text =
      if AdifParser.calculate_hash a ∈ mem then ⟨disk, mem, []⟩
      else
        match AdifParser.parse_line a with
        | none => ⟨disk, mem, []⟩
        | some _ =>
          if (CloudlogPusher.push_record cfg net a).1.1 = true then
            if AdifParser.calculate_hash a ≠ "" then
              ⟨some (Config.save_uploaded_qso disk (AdifParser.calculate_hash a)),
               mem.insert (AdifParser.calculate_hash a),
               (CloudlogPusher.push_record cfg net a).2.toList⟩
            else ⟨disk, mem, (CloudlogPusher.push_record cfg net a).2.toList⟩
          else ⟨disk, mem, (CloudlogPusher.push_record cfg net a).2.toList⟩ := by
  unfold WsjtxListener.parse_message
  rw [if_neg hc, hs]

/-- C9.  A datagram text without a `QSO_DATE` tag (or, more generally,
from which no record can be extracted or parsed) leaves the handler
state untouched and produces no network call; the handler is a total
function on the decoded text, mirroring the source's per-datagram
exception swallowing: nothing escapes to the receive loop. -/
theorem listener_ignores_recordless (cfg : PushConfig) (net : Network)
    (disk : Config.CacheFile) (mem : List String) (text : String)
    (h : PyStr.pyContains text "<QSO_DATE:" = false ∨
         PyStr.pyContains text "<CALL:" = false ∨
         WsjtxListener.searchAdif text = none ∨
         (∀ a, WsjtxListener.searchAdif text = some a → AdifParser.parse_line a = none)) :
    WsjtxListener.parse_message cfg net disk mem text = ⟨disk, mem, []⟩ := by
  by_cases hc : ¬ PyStr.pyContains text "<QSO_DATE:" = true ∨
      ¬ PyStr.pyContains text "<CALL:" = true
  · unfold WsjtxListener.parse_message
    rw [if_pos hc]
  · rcases h with h | h | h | h
    · exact absurd (Or.inl (by rw [h]; exact Bool.false_ne_true)) hc
    · exact absurd (Or.inr (by rw [h]; exact Bool.false_ne_true)) hc
    · unfold WsjtxListener.parse_message
      rw [if_neg hc, h]
    · cases hs : WsjtxListener.searchAdif text with
      | none =>
        unfold WsjtxListener.parse_message
        rw [if_neg hc, hs]
      | some a =>
        have hpa : AdifParser.parse_line a = none := h a hs
        rw [parse_message_found cfg net disk mem text a hc hs]
        by_cases hm : AdifParser.calculate_hash a ∈ mem
        · rw [if_pos hm]
        · rw [if_neg hm, hpa]

/-- Witness for C9 on a datagram text with no tags at all. -/
theorem listener_ignores_recordless_witness :
    WsjtxListener.parse_message cfgW netOK (some "cache") ["h"] "hello world" =
      ⟨some "cache", ["h"], []⟩ :=
  listener_ignores_recordless cfgW netOK (some "cache") ["h"] "hello world"
    (Or.inl (by decide))

/-- C5.  When the upload of a record fails — non-success HTTP status,
transport failure, or any other `push_record` failure — neither the
file ingestor's per-line step nor the listener's per-datagram handler
writes the duplicate cache, and the listener's in-memory working set is
also unchanged, so the record stays eligible for re-delivery. -/
theorem failed_push_leaves_cache (cfg : PushConfig) (net : Network) :
    (∀ (uh : List String) (st : CloudlogPusher.FileRun) (line : String),
        (CloudlogPusher.push_record cfg net (PyStr.pyStrip line)).1.1 = false →
        (CloudlogPusher.push_file_step cfg net uh st line).disk = st.disk) ∧
    (∀ (disk : Config.CacheFile) (mem : List String) (text a : String),
        WsjtxListener.searchAdif text = some a →
        (CloudlogPusher.push_record cfg net a).1.1 = false →
        (WsjtxListener.parse_message cfg net disk mem text).disk = disk ∧
        (WsjtxListener.parse_message cfg net disk mem text).mem = mem) := by
  constructor
  · intro uh st line hko
    unfold CloudlogPusher.push_file_step
    by_cases h1 : PyStr.pyStrip line = "" ∨ PyStr.pyStartsWith (PyStr.pyStrip line) "#" = true
    · rw [if_pos h1]
    · rw [if_neg h1]
      by_cases h2 : AdifParser.calculate_hash (PyStr.pyStrip line) ≠ "" ∧
          AdifParser.calculate_hash (PyStr.pyStrip line) ∈ uh
      · rw [if_pos h2]
      · rw [if_neg h2, if_neg (by rw [hko]; exact Bool.false_ne_true)]
  · intro disk mem text a hs hko
    by_cases hc : ¬ PyStr.pyContains text "<QSO_DATE:" = true ∨
        ¬ PyStr.pyContains text "<CALL:" = true
    · unfold WsjtxListener.parse_message
      rw [if_pos hc]
      exact ⟨rfl, rfl⟩
    · rw [parse_message_found cfg net disk mem text a hc hs]
      by_cases hm : AdifParser.calculate_hash a ∈ mem
      · rw [if_pos hm]
        exact ⟨rfl, rfl⟩
      · rw [if_neg hm]
        cases hp : AdifParser.parse_line a with
        | none => exact ⟨rfl, rfl⟩
        | some r =>
          rw [if_neg (by rw [hko]; exact Bool.false_ne_true)]
          exact ⟨rfl, rfl⟩

/-- A datagram text embedding the example record. -/
def textEx : String := "junk" ++ lineEx ++ "tail"

/-- Witness for C5: a 500 response leaves both cache states unchanged
in both ingestion paths. -/
theorem failed_push_leaves_cache_witness :
    (CloudlogPusher.push_file_step cfgW net500 [] ⟨0, 0, 0, some "c0", []⟩ lineEx).disk =
      some "c0" ∧
    (WsjtxListener.parse_message cfgW net500 (some "c0") ["m0"] textEx).disk = some "c0" ∧
    (WsjtxListener.parse_message cfgW net500 (some "c0") ["m0"] textEx).mem = ["m0"] := by
  refine ⟨?_, ?_⟩
  · exact (failed_push_leaves_cache cfgW net500).1 [] ⟨0, 0, 0, some "c0", []⟩ lineEx
      (by decide)
  · exact (failed_push_leaves_cache cfgW net500).2 (some "c0") ["m0"] textEx
      "<QSO_DATE:8>20240115<TIME_ON:6>143000<CALL:5>W1ABC<FREQ:8>14.07400<MODE:3>FT8<EOR>"
      (by decide) (by decide)

namespace AdifParser

theorem read_file_go_ok {openR : Nat → Except String (List String)}
    (fuel : Nat) {attempt : Nat} {l : List String} (h : openR attempt = Except.ok l) :
    read_file_go openR (fuel + 1) attempt = (1, [], Except.ok l) := by
  simp only [read_file_go, h]

theorem read_file_go_err_lt {openR : Nat → Except String (List String)}
    (fuel : Nat) {attempt : Nat} {e : String} (h : openR attempt = Except.error e)
    (hlt : attempt < max_retries - 1) :
    read_file_go openR (fuel + 1) attempt =
      ((read_file_go openR fuel (attempt + 1)).1 + 1,
       retry_sleep_ms :: (read_file_go openR fuel (attempt + 1)).2.1,
       (read_file_go openR fuel (attempt + 1)).2.2) := by
  simp only [read_file_go, h, if_pos hlt]

theorem read_file_go_err_last {openR : Nat → Except String (List String)}
    (fuel : Nat) {e : String} (h : openR 4 = Except.error e) :
    read_file_go openR (fuel + 1) 4 = (1, [], Except.error e) := by
  simp only [read_file_go, h]
  rw [if_neg (by norm_num [max_retries])]

/-- Shape invariant of the retry loop from any reachable state: at
least one attempt, at most `5 - attempt` attempts, and one logged
0.5-second sleep between consecutive attempts. -/
theorem read_file_go_shape (openR : Nat → Except String (List String)) :
    ∀ fuel attempt, fuel + attempt = 5 → 1 ≤ fuel →
      1 ≤ (read_file_go openR fuel attempt).1 ∧
      (read_file_go openR fuel attempt).1 + attempt ≤ 5 ∧
      (read_file_go openR fuel attempt).2.1 =
        List.replicate ((read_file_go openR fuel attempt).1 - 1) retry_sleep_ms := by
  intro fuel
  induction fuel with
  | zero => intro attempt _ h1; omega
  | succ f ih =>
    intro attempt hsum _
    cases h : openR attempt with
    | ok l =>
      rw [read_file_go_ok f h]
      exact ⟨le_refl 1, by omega, rfl⟩
    | error e =>
      by_cases hlt : attempt < max_retries - 1
      · have hf : 1 ≤ f := by
          simp only [max_retries] at hlt
          omega
        obtain ⟨ih1, ih2, ih3⟩ := ih (attempt + 1) (by omega) hf
        rw [read_file_go_err_lt f h hlt]
        refine ⟨by omega, by omega, ?_⟩
        show retry_sleep_ms :: (read_file_go openR f (attempt + 1)).2.1 =
          List.replicate ((read_file_go openR f (attempt + 1)).1 + 1 - 1) retry_sleep_ms
        rw [ih3]
        obtain ⟨n, hn⟩ : ∃ n, (read_file_go openR f (attempt + 1)).1 = n + 1 :=
          ⟨(read_file_go openR f (attempt + 1)).1 - 1, by omega⟩
        rw [hn]
        simp [List.replicate_succ]
      · have hatt : attempt = 4 := by
          simp only [max_retries] at hlt
          omega
        subst hatt
        rw [read_file_go_err_last f h]
        exact ⟨le_refl 1, by omega, rfl⟩

end AdifParser

/-- C7.  `read_file` makes between one and five open attempts, logs one
fixed 0.5-second (500 ms) sleep between consecutive attempts and none
after the last, returns the file's lines at the first successful open,
and after a fifth failed attempt surfaces the last error as the
outcome; `push_file` catches that outcome and reports zero counts, so
the failure stays confined to the single operation. -/
theorem read_file_retry_contract (openR : Nat → Except String (List String)) :
    1 ≤ (AdifParser.read_file openR).1 ∧
    (AdifParser.read_file openR).1 ≤ AdifParser.max_retries ∧
    (AdifParser.read_file openR).2.1 =
      List.replicate ((AdifParser.read_file openR).1 - 1) AdifParser.retry_sleep_ms ∧
    (∀ k lines, k < AdifParser.max_retries → openR k = Except.ok lines →
        (∀ j, j < k → ∃ e, openR j = Except.error e) →
        AdifParser.read_file openR =
          (k + 1, List.replicate k AdifParser.retry_sleep_ms, Except.ok lines)) ∧
    (∀ e, openR 4 = Except.error e → (∀ j, j < 4 → ∃ e2, openR j = Except.error e2) →
        AdifParser.read_file openR =
          (AdifParser.max_retries, List.replicate 4 AdifParser.retry_sleep_ms,
           Except.error e)) ∧
    (∀ err cfg net skip disk, (AdifParser.read_file openR).2.2 = Except.error err →
        CloudlogPusher.push_file cfg net openR skip disk = ⟨0, 0, 0, disk, []⟩) := by
  obtain ⟨s1, s2, s3⟩ := AdifParser.read_file_go_shape openR 5 0 rfl (by omega)
  refine ⟨s1, by simpa [AdifParser.max_retries] using s2, s3, ?_, ?_, ?_⟩
  · intro k lines hk hok herr
    have hk5 : k < 5 := by simpa [AdifParser.max_retries] using hk
    clear hk
    interval_cases k
    · exact AdifParser.read_file_go_ok (4) hok
    · obtain ⟨e0, he0⟩ := herr 0 (by omega)
      have h1 : AdifParser.read_file_go openR (3 + 1) (0 + 1) = (1, [], Except.ok lines) :=
        AdifParser.read_file_go_ok 3 hok
      have h0 : AdifParser.read_file openR =
          ((AdifParser.read_file_go openR (3 + 1) (0 + 1)).1 + 1,
           AdifParser.retry_sleep_ms :: (AdifParser.read_file_go openR (3 + 1) (0 + 1)).2.1,
           (AdifParser.read_file_go openR (3 + 1) (0 + 1)).2.2) :=
        AdifParser.read_file_go_err_lt (3 + 1) he0
          (by norm_num [AdifParser.max_retries])
      rw [h0, h1]
      rfl
    · obtain ⟨e0, he0⟩ := herr 0 (by omega)
      obtain ⟨e1, he1⟩ := herr 1 (by omega)
      have h2 : AdifParser.read_file_go openR (2 + 1) (0 + 1 + 1) = (1, [], Except.ok lines) :=
        AdifParser.read_file_go_ok 2 hok
      have h1 : AdifParser.read_file_go openR (2 + 1 + 1) (0 + 1) =
          ((AdifParser.read_file_go openR (2 + 1) (0 + 1 + 1)).1 + 1,
           AdifParser.retry_sleep_ms ::
             (AdifParser.read_file_go openR (2 + 1) (0 + 1 + 1)).2.1,
           (AdifParser.read_file_go openR (2 + 1) (0 + 1 + 1)).2.2) :=
        AdifParser.read_file_go_err_lt (2 + 1) he1
          (by norm_num [AdifParser.max_retries])
      have h0 : AdifParser.read_file openR =
          ((AdifParser.read_file_go openR (2 + 1 + 1) (0 + 1)).1 + 1,
           AdifParser.retry_sleep_ms ::
             (AdifParser.read_file_go openR (2 + 1 + 1) (0 + 1)).2.1,
           (AdifParser.read_file_go openR (2 + 1 + 1) (0 + 1)).2.2) :=
        AdifParser.read_file_go_err_lt (2 + 1 + 1) he0
          (by norm_num [AdifParser.max_retries])
      rw [h0, h1, h2]
      rfl
    · obtain ⟨e0, he0⟩ := herr 0 (by omega)
      obtain ⟨e1, he1⟩ := herr 1 (by omega)
      obtain ⟨e2, he2⟩ := herr 2 (by omega)
      have h3 : AdifParser.read_file_go openR (1 + 1) (0 + 1 + 1 + 1) =
          (1, [], Except.ok lines) := AdifParser.read_file_go_ok 1 hok
      have h2 : AdifParser.read_file_go openR (1 + 1 + 1) (0 + 1 + 1) =
          ((AdifParser.read_file_go openR (1 + 1) (0 + 1 + 1 + 1)).1 + 1,
           AdifParser.retry_sleep_ms ::
             (AdifParser.read_file_go openR (1 + 1) (0 + 1 + 1 + 1)).2.1,
           (AdifParser.read_file_go openR (1 + 1) (0 + 1 + 1 + 1)).2.2) :=
        AdifParser.read_file_go_err_lt (1 + 1) he2
          (by norm_num [AdifParser.max_retries])
      have h1 : AdifParser.read_file_go openR (1 + 1 + 1 + 1) (0 + 1) =
          ((AdifParser.read_file_go openR (1 + 1 + 1) (0 + 1 + 1)).1 + 1,
           AdifParser.retry_sleep_ms ::
             (AdifParser.read_file_go openR (1 + 1 + 1) (0 + 1 + 1)).2.1,
           (AdifParser.read_file_go openR (1 + 1 + 1) (0 + 1 + 1)).2.2) :=
        AdifParser.read_file_go_err_lt (1 + 1 + 1) he1
          (by norm_num [AdifParser.max_retries])
      have h0 : AdifParser.read_file openR =
          ((AdifParser.read_file_go openR (1 + 1 + 1 + 1) (0 + 1)).1 + 1,
           AdifParser.retry_sleep_ms ::
             (AdifParser.read_file_go openR (1 + 1 + 1 + 1) (0 + 1)).2.1,
           (AdifParser.read_file_go openR (1 + 1 + 1 + 1) (0 + 1)).2.2) :=
        AdifParser.read_file_go_err_lt (1 + 1 + 1 + 1) he0
          (by norm_num [AdifParser.max_retries])
      rw [h0, h1, h2, h3]
      rfl
    · obtain ⟨e0, he0⟩ := herr 0 (by omega)
      obtain ⟨e1, he1⟩ := herr 1 (by omega)
      obtain ⟨e2, he2⟩ := herr 2 (by omega)
      obtain ⟨e3, he3⟩ := herr 3 (by omega)
      have h4 : AdifParser.read_file_go openR (0 + 1) (0 + 1 + 1 + 1 + 1) =
          (1, [], Except.ok lines) := AdifParser.read_file_go_ok 0 hok
      have h3 : AdifParser.read_file_go openR (0 + 1 + 1) (0 + 1 + 1 + 1) =
          ((AdifParser.read_file_go openR (0 + 1) (0 + 1 + 1 + 1 + 1)).1 + 1,
           AdifParser.retry_sleep_ms ::
             (AdifParser.read_file_go openR (0 + 1) (0 + 1 + 1 + 1 + 1)).2.1,
           (AdifParser.read_file_go openR (0 + 1) (0 + 1 + 1 + 1 + 1)).2.2) :=
        AdifParser.read_file_go_err_lt (0 + 1) he3
          (by norm_num [AdifParser.max_retries])
      have h2 : AdifParser.read_file_go openR (0 + 1 + 1 + 1) (0 + 1 + 1) =
          ((AdifParser.read_file_go openR (0 + 1 + 1) (0 + 1 + 1 + 1)).1 + 1,
           AdifParser.retry_sleep_ms ::
             (AdifParser.read_file_go openR (0 + 1 + 1) (0 + 1 + 1 + 1)).2.1,
           (AdifParser.read_file_go openR (0 + 1 + 1) (0 + 1 + 1 + 1)).2.2) :=
        AdifParser.read_file_go_err_lt (0 + 1 + 1) he2
          (by norm_num [AdifParser.max_retries])
      have h1 : AdifParser.read_file_go openR (0 + 1 + 1 + 1 + 1) (0 + 1) =
          ((AdifParser.read_file_go openR (0 + 1 + 1 + 1) (0 + 1 + 1)).1 + 1,
           AdifParser.retry_sleep_ms ::
             (AdifParser.read_file_go openR (0 + 1 + 1 + 1) (0 + 1 + 1)).2.1,
           (AdifParser.read_file_go openR (0 + 1 + 1 + 1) (0 + 1 + 1)).2.2) :=
        AdifParser.read_file_go_err_lt (0 + 1 + 1 + 1) he1
          (by norm_num [AdifParser.max_retries])
      have h0 : AdifParser.read_file openR =
          ((AdifParser.read_file_go openR (0 + 1 + 1 + 1 + 1) (0 + 1)).1 + 1,
           AdifParser.retry_sleep_ms ::
             (AdifParser.read_file_go openR (0 + 1 + 1 + 1 + 1) (0 + 1)).2.1,
           (AdifParser.read_file_go openR (0 + 1 + 1 + 1 + 1) (0 + 1)).2.2) :=
        AdifParser.read_file_go_err_lt (0 + 1 + 1 + 1 + 1) he0
          (by norm_num [AdifParser.max_retries])
      rw [h0, h1, h2, h3, h4]
      rfl
  · intro e he4 herr
    obtain ⟨e0, he0⟩ := herr 0 (by omega)
    obtain ⟨e1, he1⟩ := herr 1 (by omega)
    obtain ⟨e2, he2⟩ := herr 2 (by omega)
    obtain ⟨e3, he3⟩ := herr 3 (by omega)
    have h4 : AdifParser.read_file_go openR (0 + 1) (0 + 1 + 1 + 1 + 1) =
        (1, [], Except.error e) := AdifParser.read_file_go_err_last (0 : Nat) he4
    have h3 : AdifParser.read_file_go openR (0 + 1 + 1) (0 + 1 + 1 + 1) =
        ((AdifParser.read_file_go openR (0 + 1) (0 + 1 + 1 + 1 + 1)).1 + 1,
         AdifParser.retry_sleep_ms ::
           (AdifParser.read_file_go openR (0 + 1) (0 + 1 + 1 + 1 + 1)).2.1,
         (AdifParser.read_file_go openR (0 + 1) (0 + 1 + 1 + 1 + 1)).2.2) :=
      AdifParser.read_file_go_err_lt (0 + 1) he3
        (by norm_num [AdifParser.max_retries])
    have h2 : AdifParser.read_file_go openR (0 + 1 + 1 + 1) (0 + 1 + 1) =
        ((AdifParser.read_file_go openR (0 + 1 + 1) (0 + 1 + 1 + 1)).1 + 1,
         AdifParser.retry_sleep_ms ::
           (AdifParser.read_file_go openR (0 + 1 + 1) (0 + 1 + 1 + 1)).2.1,
         (AdifParser.read_file_go openR (0 + 1 + 1) (0 + 1 + 1 + 1)).2.2) :=
      AdifParser.read_file_go_err_lt (0 + 1 + 1) he2
        (by norm_num [AdifParser.max_retries])
    have h1 : AdifParser.read_file_go openR (0 + 1 + 1 + 1 + 1) (0 + 1) =
        ((AdifParser.read_file_go openR (0 + 1 + 1 + 1) (0 + 1 + 1)).1 + 1,
         AdifParser.retry_sleep_ms ::
           (AdifParser.read_file_go openR (0 + 1 + 1 + 1) (0 + 1 + 1)).2.1,
         (AdifParser.read_file_go openR (0 + 1 + 1 + 1) (0 + 1 + 1)).2.2) :=
      AdifParser.read_file_go_err_lt (0 + 1 + 1 + 1) he1
        (by norm_num [AdifParser.max_retries])
    have h0 : AdifParser.read_file openR =
        ((AdifParser.read_file_go openR (0 + 1 + 1 + 1 + 1) (0 + 1)).1 + 1,
         AdifParser.retry_sleep_ms ::
           (AdifParser.read_file_go openR (0 + 1 + 1 + 1 + 1) (0 + 1)).2.1,
         (AdifParser.read_file_go openR (0 + 1 + 1 + 1 + 1) (0 + 1)).2.2) :=
      AdifParser.read_file_go_err_lt (0 + 1 + 1 + 1 + 1) he0
        (by norm_num [AdifParser.max_retries])
    rw [h0, h1, h2, h3, h4]
    rfl
  · intro err cfg net skip disk herr
    unfold CloudlogPusher.push_file
    rw [herr]

/-- A file locked for the first two open attempts. -/
def openLocked2 : Nat → Except String (List String) :=
  fun i => if i < 2 then Except.error "locked" else Except.ok ["rec"]

/-- Witness for C7: two lock failures then a successful read gives
three attempts, two 0.5-second sleeps, and the file's lines. -/
theorem read_file_retry_contract_witness :
    AdifParser.read_file openLocked2 =
      (3, [AdifParser.retry_sleep_ms, AdifParser.retry_sleep_ms], Except.ok ["rec"]) ∧
    (AdifParser.read_file openLocked2).1 ≤ AdifParser.max_retries := by
  constructor
  · have h := (read_file_retry_contract openLocked2).2.2.2.1 2 ["rec"]
      (by norm_num [AdifParser.max_retries]) rfl
      (by
        intro j hj
        interval_cases j
        · exact ⟨"locked", rfl⟩
        · exact ⟨"locked", rfl⟩)
    simpa using h
  · exact (read_file_retry_contract openLocked2).2.1

namespace CloudlogPusher

/-- `push_file` with duplicate skipping is the per-line fold against
the snapshot loaded once at the start, when the file read succeeds. -/
theorem push_file_ok_skip (cfg : PushConfig) (net : Network)
    (openR : Nat → Except String (List String)) (disk : Config.CacheFile)
    (lines : List String) (h : (AdifParser.read_file openR).2.2 = Except.ok lines) :
    push_file cfg net openR true disk =
      lines.foldl (push_file_step cfg net (Config.load_uploaded_qsos disk))
        ⟨0, 0, 0, disk, []⟩ := by
  unfold push_file
  rw [h]
  rfl

end CloudlogPusher

/-- C1 counterexample.  Feeding the same valid record line twice in one
`push_file` run over an empty cache: both copies are sent (two network
calls, `success = 2`) and nothing is skipped, because the in-memory
snapshot of the cache is never updated mid-run. -/
theorem midrun_duplicate_counterexample :
    (CloudlogPusher.push_file cfgW netOK (fun _ => Except.ok [lineEx, lineEx])
      true none).skipped = 0 ∧
    (CloudlogPusher.push_file cfgW netOK (fun _ => Except.ok [lineEx, lineEx])
      true none).success = 2 ∧
    (CloudlogPusher.push_file cfgW netOK (fun _ => Except.ok [lineEx, lineEx])
      true none).calls.length = 2 := by
  decide

/-- C1 amended.  When a valid line's key is added mid-run after a
successful send, a later line of the same file with the same key is NOT
skipped: the duplicate snapshot is fixed at the start of the run, so
the later duplicate is forwarded again through the Upload Client and,
on success, counted as sent a second time. -/
theorem midrun_duplicate_resent (cfg : PushConfig) (net : Network)
    (disk : Config.CacheFile) (l : String) (r : Record)
    (hp : AdifParser.parse_line (PyStr.pyStrip l) = some r)
    (hsh : ¬ PyStr.pyStartsWith (PyStr.pyStrip l) "#" = true)
    (hok : (CloudlogPusher.push_record cfg net (PyStr.pyStrip l)).1.1 = true)
    (hnew : AdifParser.calculate_hash (PyStr.pyStrip l) ∉ Config.load_uploaded_qsos disk) :
    (CloudlogPusher.push_file cfg net (fun _ => Except.ok [l, l]) true disk).success = 2 ∧
    (CloudlogPusher.push_file cfg net (fun _ => Except.ok [l, l]) true disk).skipped = 0 ∧
    (CloudlogPusher.push_file cfg net (fun _ => Except.ok [l, l]) true disk).calls.length = 2 := by
  have hblank : PyStr.pyStrip l ≠ "" := by
    intro h
    rw [h, parse_line_empty] at hp
    cases hp
  have hne : ¬(PyStr.pyStrip l = "" ∨ PyStr.pyStartsWith (PyStr.pyStrip l) "#" = true) := by
    rintro (h | h)
    · exact hblank h
    · exact hsh h
  have hhne : AdifParser.calculate_hash (PyStr.pyStrip l) ≠ "" := by
    intro he
    rw [AdifParser.calculate_hash_eq_empty_iff, hp] at he
    cases he
  have hdup : ¬(AdifParser.calculate_hash (PyStr.pyStrip l) ≠ "" ∧
      AdifParser.calculate_hash (PyStr.pyStrip l) ∈ Config.load_uploaded_qsos disk) :=
    fun hx => hnew hx.2
  have hread : (AdifParser.read_file fun _ => Except.ok [l, l]).2.2 = Except.ok [l, l] := rfl
  rw [CloudlogPusher.push_file_ok_skip cfg net _ disk [l, l] hread]
  rw [List.foldl_cons, List.foldl_cons, List.foldl_nil]
  rw [CloudlogPusher.push_file_step_success _ _ _ _ _ hne hdup hok]
  rw [CloudlogPusher.push_file_step_success _ _ _ _ _ hne hdup hok]
  have hpay := CloudlogPusher.push_record_payload cfg net (PyStr.pyStrip l) hp
  simp [hpay]

/-- Witness for the amended C1 at the example line over an empty
cache. -/
theorem midrun_duplicate_resent_witness :
    (CloudlogPusher.push_file cfgW netOK (fun _ => Except.ok [lineEx, lineEx])
      true none).success = 2 ∧
    (CloudlogPusher.push_file cfgW netOK (fun _ => Except.ok [lineEx, lineEx])
      true none).skipped = 0 ∧
    (CloudlogPusher.push_file cfgW netOK (fun _ => Except.ok [lineEx, lineEx])
      true none).calls.length = 2 :=
  midrun_duplicate_resent cfgW netOK none lineEx
    [("qso_date", "20240115"), ("time_on", "143000"), ("call", "W1ABC"),
     ("freq", "14.07400"), ("mode", "FT8")]
    (by decide) (by decide) (by decide) (List.not_mem_nil _)

/-- A line that `push_file` counts as a valid record: non-blank, not a
comment, and parseable. -/
def isValidRecordLine (l : String) : Bool :=
  if PyStr.pyStrip l = "" ∨ PyStr.pyStartsWith (PyStr.pyStrip l) "#" = true then false
  else (AdifParser.parse_line (PyStr.pyStrip l)).isSome

/-- The number of valid records among a file's lines. -/
def validRecordCount (lines : List String) : Nat :=
  (lines.filter isValidRecordLine).length

theorem isValidRecordLine_iff {l : String} :
    isValidRecordLine l = true ↔
      ¬(PyStr.pyStrip l = "" ∨ PyStr.pyStartsWith (PyStr.pyStrip l) "#" = true) ∧
      (AdifParser.parse_line (PyStr.pyStrip l)).isSome = true := by
  unfold isValidRecordLine
  by_cases h : PyStr.pyStrip l = "" ∨ PyStr.pyStartsWith (PyStr.pyStrip l) "#" = true
  · simp [h]
  · simp [h]

/-- One ingestion step never loses a clean key already on disk. -/
theorem push_file_step_disk_mono (cfg : PushConfig) (net : Network) (uh : List String)
    (st : CloudlogPusher.FileRun) (line : String) {k : String} (hk : cleanKey k)
    (h : k ∈ Config.load_uploaded_qsos st.disk) :
    k ∈ Config.load_uploaded_qsos (CloudlogPusher.push_file_step cfg net uh st line).disk := by
  by_cases h1 : PyStr.pyStrip line = "" ∨ PyStr.pyStartsWith (PyStr.pyStrip line) "#" = true
  · rw [CloudlogPusher.push_file_step_blank _ _ _ _ _ h1]
    exact h
  by_cases h2 : AdifParser.calculate_hash (PyStr.pyStrip line) ≠ "" ∧
      AdifParser.calculate_hash (PyStr.pyStrip line) ∈ uh
  · rw [CloudlogPusher.push_file_step_skip _ _ _ _ _ h1 h2]
    exact h
  by_cases h3 : (CloudlogPusher.push_record cfg net (PyStr.pyStrip line)).1.1 = true
  · rw [CloudlogPusher.push_file_step_success _ _ _ _ _ h1 h2 h3]
    show k ∈ Config.load_uploaded_qsos
      (if AdifParser.calculate_hash (PyStr.pyStrip line) ≠ "" then
        some (Config.save_uploaded_qso st.disk (AdifParser.calculate_hash (PyStr.pyStrip line)))
      else st.disk)
    by_cases h4 : AdifParser.calculate_hash (PyStr.pyStrip line) ≠ ""
    · rw [if_pos h4]
      have hck := AdifParser.cleanKey_of_hash_ne_empty h4
      exact Config.mem_load_save_of_mem hk
        (PyStr.cleanChunk_not_nl (cleanChunk_data_of_cleanKey hck)) h
    · rw [if_neg h4]
      exact h
  · have h3f : (CloudlogPusher.push_record cfg net (PyStr.pyStrip line)).1.1 = false := by
      revert h3
      cases (CloudlogPusher.push_record cfg net (PyStr.pyStrip line)).1.1 <;> simp
    rw [CloudlogPusher.push_file_step_fail _ _ _ _ _ h1 h2 h3f]
    exact h

/-- The whole fold never loses a clean key already on disk. -/
theorem push_file_fold_disk_mono (cfg : PushConfig) (net : Network) (uh : List String) :
    ∀ (lines : List String) (st : CloudlogPusher.FileRun) {k : String}, cleanKey k →
      k ∈ Config.load_uploaded_qsos st.disk →
      k ∈ Config.load_uploaded_qsos
        ((lines.foldl (CloudlogPusher.push_file_step cfg net uh) st).disk) := by
  intro lines
  induction lines with
  | nil => intro st k hk h; exact h
  | cons a as ih =>
    intro st k hk h
    rw [List.foldl_cons]
    exact ih _ hk (push_file_step_disk_mono cfg net uh st a hk h)

/-- After a run in which every attempted send succeeded, the hash of
every valid line is on disk. -/
theorem push_file_fold_covers (cfg : PushConfig) (net : Network) (uh : List String) :
    ∀ (lines : List String) (st : CloudlogPusher.FileRun),
      (∀ kk, cleanKey kk → kk ∈ uh → kk ∈ Config.load_uploaded_qsos st.disk) →
      (∀ l ∈ lines, (AdifParser.parse_line (PyStr.pyStrip l)).isSome = true →
          (CloudlogPusher.push_record cfg net (PyStr.pyStrip l)).1.1 = true) →
      ∀ l ∈ lines, isValidRecordLine l = true →
        AdifParser.calculate_hash (PyStr.pyStrip l) ∈
          Config.load_uploaded_qsos
            ((lines.foldl (CloudlogPusher.push_file_step cfg net uh) st).disk) := by
  intro lines
  induction lines with
  | nil => intro st _ _ l hl; cases hl
  | cons a as ih =>
    intro st hinv hok l hl hvalid
    rw [List.foldl_cons]
    rcases List.mem_cons.mp hl with rfl | hl'
    · obtain ⟨h1, hparse⟩ := isValidRecordLine_iff.mp hvalid
      have hhne : AdifParser.calculate_hash (PyStr.pyStrip l) ≠ "" := by
        intro he
        rw [AdifParser.calculate_hash_eq_empty_iff] at he
        rw [he] at hparse
        simp at hparse
      have hck := AdifParser.cleanKey_of_hash_ne_empty hhne
      have hmem1 : AdifParser.calculate_hash (PyStr.pyStrip l) ∈
          Config.load_uploaded_qsos (CloudlogPusher.push_file_step cfg net uh st l).disk := by
        by_cases h2 : AdifParser.calculate_hash (PyStr.pyStrip l) ≠ "" ∧
            AdifParser.calculate_hash (PyStr.pyStrip l) ∈ uh
        · rw [CloudlogPusher.push_file_step_skip _ _ _ _ _ h1 h2]
          exact hinv _ hck h2.2
        · rw [CloudlogPusher.push_file_step_success _ _ _ _ _ h1 h2
            (hok l (List.mem_cons_self _ _) hparse)]
          show AdifParser.calculate_hash (PyStr.pyStrip l) ∈ Config.load_uploaded_qsos
            (if AdifParser.calculate_hash (PyStr.pyStrip l) ≠ "" then
              some (Config.save_uploaded_qso st.disk (AdifParser.calculate_hash (PyStr.pyStrip l)))
            else st.disk)
          rw [if_pos hhne]
          exact Config.self_mem_load_save hck
      exact push_file_fold_disk_mono cfg net uh as _ hck hmem1
    · refine ih (CloudlogPusher.push_file_step cfg net uh st a) ?_ ?_ l hl' hvalid
      · intro kk hckk hkk
        exact push_file_step_disk_mono cfg net uh st a hckk (hinv kk hckk hkk)
      · intro l2 hl2 hp2
        exact hok l2 (List.mem_cons_of_mem a hl2) hp2

/-- When every valid line's hash is already in the snapshot, a run
sends nothing and skips exactly the valid records. -/
theorem push_file_fold_all_skipped (cfg : PushConfig) (net : Network) (uh : List String) :
    ∀ (lines : List String) (st : CloudlogPusher.FileRun),
      (∀ l ∈ lines, isValidRecordLine l = true →
          AdifParser.calculate_hash (PyStr.pyStrip l) ∈ uh) →
      (lines.foldl (CloudlogPusher.push_file_step cfg net uh) st).success = st.success ∧
      (lines.foldl (CloudlogPusher.push_file_step cfg net uh) st).skipped =
        st.skipped + validRecordCount lines := by
  intro lines
  induction lines with
  | nil =>
    intro st _
    exact ⟨rfl, by simp [validRecordCount]⟩
  | cons a as ih =>
    intro st hin
    rw [List.foldl_cons]
    by_cases hval : isValidRecordLine a = true
    · obtain ⟨h1, hparse⟩ := isValidRecordLine_iff.mp hval
      have hhne : AdifParser.calculate_hash (PyStr.pyStrip a) ≠ "" := by
        intro he
        rw [AdifParser.calculate_hash_eq_empty_iff] at he
        rw [he] at hparse
        simp at hparse
      have hdup : AdifParser.calculate_hash (PyStr.pyStrip a) ≠ "" ∧
          AdifParser.calculate_hash (PyStr.pyStrip a) ∈ uh :=
        ⟨hhne, hin a (List.mem_cons_self _ _) hval⟩
      rw [CloudlogPusher.push_file_step_skip _ _ _ _ _ h1 hdup]
      obtain ⟨g1, g2⟩ := ih { st with skipped := st.skipped + 1 }
        (fun l hl hv => hin l (List.mem_cons_of_mem a hl) hv)
      refine ⟨g1, ?_⟩
      rw [g2]
      show st.skipped + 1 + validRecordCount as = st.skipped + validRecordCount (a :: as)
      have hc : validRecordCount (a :: as) = validRecordCount as + 1 := by
        simp [validRecordCount, List.filter_cons, hval]
      omega
    · have hvf : isValidRecordLine a = false := by
        revert hval
        cases isValidRecordLine a <;> simp
      have hc : validRecordCount (a :: as) = validRecordCount as := by
        simp [validRecordCount, List.filter_cons, hvf]
      by_cases h1 : PyStr.pyStrip a = "" ∨ PyStr.pyStartsWith (PyStr.pyStrip a) "#" = true
      · rw [CloudlogPusher.push_file_step_blank _ _ _ _ _ h1]
        obtain ⟨g1, g2⟩ := ih st (fun l hl hv => hin l (List.mem_cons_of_mem a hl) hv)
        exact ⟨g1, by rw [g2, hc]⟩
      · have hpf : (AdifParser.parse_line (PyStr.pyStrip a)).isSome = false := by
          have h := hvf
          unfold isValidRecordLine at h
          rw [if_neg h1] at h
          exact h
        have hpnone : AdifParser.parse_line (PyStr.pyStrip a) = none := by
          cases hp : AdifParser.parse_line (PyStr.pyStrip a) with
          | none => rfl
          | some r =>
            rw [hp] at hpf
            simp at hpf
        have hhash : AdifParser.calculate_hash (PyStr.pyStrip a) = "" :=
          AdifParser.calculate_hash_eq_empty_iff.mpr hpnone
        have hdup : ¬(AdifParser.calculate_hash (PyStr.pyStrip a) ≠ "" ∧
            AdifParser.calculate_hash (PyStr.pyStrip a) ∈ uh) :=
          fun hx => hx.1 hhash
        have hko : (CloudlogPusher.push_record cfg net (PyStr.pyStrip a)).1.1 = false := by
          unfold CloudlogPusher.push_record
          rw [hpnone]
        rw [CloudlogPusher.push_file_step_fail _ _ _ _ _ h1 hdup hko]
        obtain ⟨g1, g2⟩ := ih
          { st with
            failed := st.failed + 1
            calls := st.calls ++
              ((CloudlogPusher.push_record cfg net (PyStr.pyStrip a)).2).toList }
          (fun l hl hv => hin l (List.mem_cons_of_mem a hl) hv)
        exact ⟨g1, by rw [g2, hc]⟩

/-- C4.  Running `push_file` twice on the same unchanged file with
duplicate skipping, where every send attempted in the first run
succeeded, yields `success = 0` on the second run and `skipped` equal
to the number of valid records in the file. -/
theorem push_file_idempotent (cfg : PushConfig) (net : Network)
    (openR : Nat → Except String (List String)) (disk : Config.CacheFile)
    (lines : List String) (hread : (AdifParser.read_file openR).2.2 = Except.ok lines)
    (hok : ∀ l ∈ lines, (AdifParser.parse_line (PyStr.pyStrip l)).isSome = true →
        (CloudlogPusher.push_record cfg net (PyStr.pyStrip l)).1.1 = true) :
    (CloudlogPusher.push_file cfg net openR true
        (CloudlogPusher.push_file cfg net openR true disk).disk).success = 0 ∧
    (CloudlogPusher.push_file cfg net openR true
        (CloudlogPusher.push_file cfg net openR true disk).disk).skipped =
      validRecordCount lines := by
  have hrw1 := CloudlogPusher.push_file_ok_skip cfg net openR disk lines hread
  have hcover : ∀ l ∈ lines, isValidRecordLine l = true →
      AdifParser.calculate_hash (PyStr.pyStrip l) ∈
        Config.load_uploaded_qsos (CloudlogPusher.push_file cfg net openR true disk).disk := by
    intro l hl hv
    rw [hrw1]
    exact push_file_fold_covers cfg net (Config.load_uploaded_qsos disk) lines
      ⟨0, 0, 0, disk, []⟩ (fun kk _ h => h) hok l hl hv
  have hrw2 := CloudlogPusher.push_file_ok_skip cfg net openR
    (CloudlogPusher.push_file cfg net openR true disk).disk lines hread
  rw [hrw2]
  obtain ⟨g1, g2⟩ := push_file_fold_all_skipped cfg net
    (Config.load_uploaded_qsos (CloudlogPusher.push_file cfg net openR true disk).disk)
    lines ⟨0, 0, 0, (CloudlogPusher.push_file cfg net openR true disk).disk, []⟩ hcover
  refine ⟨g1, ?_⟩
  rw [g2]
  show 0 + validRecordCount lines = validRecordCount lines
  omega

/-- A fixed four-line file: one valid record, a blank line, a comment,
and an unparseable line. -/
def linesW : List String := [lineEx, "", "# comment", "garbage"]

/-- Witness for C4: two runs over `linesW` starting from an empty
cache; the second run sends nothing and skips the one valid record. -/
theorem push_file_idempotent_witness :
    (CloudlogPusher.push_file cfgW netOK (fun _ => Except.ok linesW) true
        (CloudlogPusher.push_file cfgW netOK (fun _ => Except.ok linesW) true none).disk).success = 0 ∧
    (CloudlogPusher.push_file cfgW netOK (fun _ => Except.ok linesW) true
        (CloudlogPusher.push_file cfgW netOK (fun _ => Except.ok linesW) true none).disk).skipped =
      validRecordCount linesW :=
  push_file_idempotent cfgW netOK (fun _ => Except.ok linesW) none linesW rfl (by decide)
